import Mathlib

set_option autoImplicit false
set_option maxHeartbeats 1000000

/-!
Verification of the per-worker I/O loop of `src/lib/lwan-thread.c`:
the intrusive "death queue" (index-linked circular list with a sentinel
head), coroutine spawn/resume/destroy, and the epoll arm/rearm logic.

Machine integers: link indices `prev`/`next` are C `int`s holding either a
valid connection-table index or `-1` (the sentinel head); they are modelled
as `Int`.  `dq->time` and `time_to_die` are C `unsigned int`s; they are
modelled as `Nat` with additions reduced modulo `2^32` (`uintMod`), and
`keep_alive_timeout` is a C `unsigned short`.
-/

/-- `2^32`, the modulus of C `unsigned int` arithmetic. -/
def uintMod : Nat := 4294967296

/-- The connection flag bits used by `lwan-thread.c`
(`CONN_KEEP_ALIVE`, `CONN_IS_ALIVE`, `CONN_SHOULD_RESUME_CORO`,
`CONN_WRITE_EVENTS`, `CONN_MUST_READ`). -/
@[ext]
structure ConnFlags where
  keepAlive : Bool
  isAlive : Bool
  shouldResume : Bool
  writeEvents : Bool
  mustRead : Bool
deriving DecidableEq

/-- `struct lwan_connection`: the fields `lwan-thread.c` reads or writes.
`coro` is `true` when the `struct coro *` pointer is non-null.  The slot
index doubles as the file descriptor (`slot_index == fd`). -/
@[ext]
structure LwanConnection where
  flags : ConnFlags
  time_to_die : Nat
  prev : Int
  next : Int
  coro : Bool
deriving DecidableEq

/-- `struct death_queue`.  `conns` is the process-wide connection table
(`lwan->conns`), `head` the sentinel node embedded in the queue struct. -/
@[ext]
structure DeathQueue where
  conns : Nat → LwanConnection
  head : LwanConnection
  time : Nat
  keep_alive_timeout : Nat

/-- Helper modelling a store through a `struct lwan_connection *` that points
into the connection table at index `i`. -/
def updateConn (dq : DeathQueue) (i : Nat) (f : LwanConnection → LwanConnection) :
    DeathQueue :=
  { dq with conns := fun j => if j = i then f (dq.conns j) else dq.conns j }

/-- Reading `death_queue_idx_to_node(dq, idx)->next`: a negative index
denotes the sentinel head. -/
def death_queue_get_next (dq : DeathQueue) (idx : Int) : Int :=
  if idx < 0 then dq.head.next else (dq.conns idx.toNat).next

/-- Reading `death_queue_idx_to_node(dq, idx)->prev`. -/
def death_queue_get_prev (dq : DeathQueue) (idx : Int) : Int :=
  if idx < 0 then dq.head.prev else (dq.conns idx.toNat).prev

/-- Writing `death_queue_idx_to_node(dq, idx)->next = v`. -/
def death_queue_set_next (dq : DeathQueue) (idx v : Int) : DeathQueue :=
  if idx < 0 then { dq with head := { dq.head with next := v } }
  else updateConn dq idx.toNat fun c => { c with next := v }

/-- Writing `death_queue_idx_to_node(dq, idx)->prev = v`. -/
def death_queue_set_prev (dq : DeathQueue) (idx v : Int) : DeathQueue :=
  if idx < 0 then { dq with head := { dq.head with prev := v } }
  else updateConn dq idx.toNat fun c => { c with prev := v }

/-- `death_queue_insert(dq, &conns[i])`: link node `i` in right before the
sentinel head, i.e. at the tail.  The assignments are performed in source
order: `new_node->next = -1`, `new_node->prev = dq->head.prev`, then
`dq->head.prev = prev->next = idx(new_node)`. -/
def death_queue_insert (dq : DeathQueue) (i : Nat) : DeathQueue :=
  let dq1 := updateConn dq i fun c => { c with next := -1 }
  let dq2 := updateConn dq1 i fun c => { c with prev := dq1.head.prev }
  let p := dq2.head.prev
  let dq3 := death_queue_set_next dq2 p (i : Int)
  { dq3 with head := { dq3.head with prev := (i : Int) } }

/-- `death_queue_remove(dq, &conns[i])`: unlink node `i`
(`next->prev = node->prev; prev->next = node->next;`) and then defensively
reset the node's own links to `-1`. -/
def death_queue_remove (dq : DeathQueue) (i : Nat) : DeathQueue :=
  let p := (dq.conns i).prev
  let n := (dq.conns i).next
  let dq1 := death_queue_set_prev dq n ((dq.conns i).prev)
  let dq2 := death_queue_set_next dq1 p ((dq1.conns i).next)
  let dq3 := updateConn dq2 i fun c => { c with next := -1 }
  updateConn dq3 i fun c => { c with prev := -1 }

/-- `death_queue_empty(dq)`: `dq->head.next < 0`. -/
def death_queue_empty (dq : DeathQueue) : Bool :=
  decide (dq.head.next < 0)

/-- `death_queue_move_to_last(dq, conn)`: refresh `time_to_die` (keep-alive
or resumable connections get `dq->time + dq->keep_alive_timeout`, others
`dq->time`), then `remove` and `insert`. -/
def death_queue_move_to_last (dq : DeathQueue) (i : Nat) : DeathQueue :=
  let dq1 := updateConn dq i fun c =>
    { c with time_to_die :=
        (dq.time + (if c.flags.keepAlive || c.flags.shouldResume
                    then dq.keep_alive_timeout else 0)) % uintMod }
  death_queue_insert (death_queue_remove dq1 i) i

/-- `death_queue_init(dq, lwan)`. -/
def death_queue_init (conns0 : Nat → LwanConnection) (kat : Nat) : DeathQueue :=
  { conns := conns0
    head := { flags := ⟨false, false, false, false, false⟩, time_to_die := 0,
              prev := -1, next := -1, coro := false }
    time := 0
    keep_alive_timeout := kat }

/-- `destroy_coro(dq, conn)`: unlink, free the coroutine if present, and if
the connection is alive clear `CONN_IS_ALIVE` and close the fd. -/
def destroy_coro (dq : DeathQueue) (i : Nat) : DeathQueue :=
  let dq1 := death_queue_remove dq i
  let dq2 := if (dq1.conns i).coro then
               updateConn dq1 i fun c => { c with coro := false }
             else dq1
  if (dq2.conns i).flags.isAlive then
    updateConn dq2 i fun c => { c with flags := { c.flags with isAlive := false } }
  else dq2

/-- The loop body of `death_queue_kill_waiting`: while the queue is
non-empty and the head's `time_to_die` does not exceed `dq->time`, destroy
the head.  `fuel` bounds the iteration count; any `fuel` larger than the
queue length reproduces the C loop exactly.  When the loop drains the
queue, `dq->time` is reset to `0`. -/
def killLoop : DeathQueue → Nat → DeathQueue
  | dq, 0 => dq
  | dq, fuel + 1 =>
    if death_queue_empty dq then { dq with time := 0 }
    else
      let i := dq.head.next.toNat
      if dq.time < (dq.conns i).time_to_die then dq
      else killLoop (destroy_coro dq i) fuel

/-- `death_queue_kill_waiting(dq)`: `dq->time++` followed by the reaping
loop. -/
def death_queue_kill_waiting (dq : DeathQueue) (fuel : Nat) : DeathQueue :=
  killLoop { dq with time := (dq.time + 1) % uintMod } fuel

/-- `spawn_coro(conn, switcher, dq)`.  `coro_new_ok` is the success of
`coro_new`; on failure the error is logged and the function returns after
the null assignment to `conn->coro`.  On success the flags are overwritten
with `CONN_IS_ALIVE | CONN_SHOULD_RESUME_CORO`, the deadline set, and the
node inserted. -/
def spawn_coro (dq : DeathQueue) (i : Nat) (coro_new_ok : Bool) : DeathQueue :=
  let dq1 := updateConn dq i fun c => { c with coro := coro_new_ok }
  if coro_new_ok = false then dq1
  else
    let dq2 := updateConn dq1 i fun c =>
      { c with flags := { keepAlive := false, isAlive := true,
                          shouldResume := true, writeEvents := false,
                          mustRead := false } }
    let dq3 := updateConn dq2 i fun c =>
      { c with time_to_die := (dq2.time + dq2.keep_alive_timeout) % uintMod }
    death_queue_insert dq3 i

/-- The `epoll_event.events` bit sets that `lwan-thread.c` uses. -/
@[ext]
structure EpollEvents where
  epollin : Bool
  epollout : Bool
  epollrdhup : Bool
  epollerr : Bool
  epollet : Bool
deriving DecidableEq

/-- `events_by_write_flag`: index `0` (`false`) is
`EPOLLOUT | EPOLLRDHUP | EPOLLERR`; index `1` (`true`) is
`EPOLLIN | EPOLLRDHUP | EPOLLERR | EPOLLET`. -/
def events_by_write_flag : Bool → EpollEvents
  | false => { epollin := false, epollout := true, epollrdhup := true,
               epollerr := true, epollet := false }
  | true => { epollin := true, epollout := false, epollrdhup := true,
              epollerr := true, epollet := true }

/-- A registered epoll entry: the interest mask and the user data pointer
(`some i` for the address of connection slot `i`, `none` for NULL). -/
@[ext]
structure EpollEntry where
  events : EpollEvents
  dataPtr : Option Nat
deriving DecidableEq

/-- A worker's reactor-visible state: its death queue (with the connection
table) and its epoll instance, keyed by fd. -/
@[ext]
structure Worker where
  dq : DeathQueue
  epoll : Nat → Option EpollEntry

/-- `epoll_ctl(epoll_fd, EPOLL_CTL_MOD, fd, &event)`: succeeds only when the
fd is registered; on failure the error is logged and nothing changes. -/
def epoll_ctl_mod (w : Worker) (fd : Nat) (e : EpollEntry) : Worker :=
  if (w.epoll fd).isSome then
    { w with epoll := fun j => if j = fd then some e else w.epoll j }
  else w

/-- Helper applying a connection-table update inside a worker. -/
def updateWConn (w : Worker) (i : Nat) (f : LwanConnection → LwanConnection) :
    Worker :=
  { w with dq := updateConn w.dq i f }

/-- What a single `coro_resume(conn->coro)` does from the reactor's point of
view: the coroutine runs, may set or clear `CONN_MUST_READ` and
`CONN_KEEP_ALIVE` (via the request pipeline), and yields a disposition
(`CONN_CORO_ABORT = -1`, `CONN_CORO_MAY_RESUME = 0`, larger values mean the
request finished). -/
structure CoroOutcome where
  yieldResult : Int
  mustRead : Bool
  keepAlive : Bool

/-- `resume_coro_if_needed(dq, conn, epoll_fd)`.  Returns immediately unless
`CONN_SHOULD_RESUME_CORO` is set; destroys on an abort disposition
(`yield_result < CONN_CORO_MAY_RESUME`); otherwise picks `write_events` and
possibly reprograms the epoll entry, finishing with
`conn->flags ^= CONN_WRITE_EVENTS`. -/
def resume_coro_if_needed (w : Worker) (i : Nat) (o : CoroOutcome) : Worker :=
  if (w.dq.conns i).flags.shouldResume = false then w
  else
    let w1 := updateWConn w i fun c =>
      { c with flags := { c.flags with mustRead := o.mustRead,
                                       keepAlive := o.keepAlive } }
    if o.yieldResult < 0 then { w1 with dq := destroy_coro w1.dq i }
    else if (w1.dq.conns i).flags.mustRead then
      let w2 := epoll_ctl_mod w1 i
        { events := events_by_write_flag true, dataPtr := some i }
      updateWConn w2 i fun c =>
        { c with flags := { c.flags with writeEvents := !c.flags.writeEvents } }
    else
      let sr : Bool := o.yieldResult == 0
      let w2 := updateWConn w1 i fun c =>
        { c with flags := { c.flags with shouldResume := sr } }
      let we := (w2.dq.conns i).flags.writeEvents
      if sr = we then w2
      else
        let w3 := epoll_ctl_mod w2 i
          { events := events_by_write_flag we, dataPtr := some i }
        updateWConn w3 i fun c =>
          { c with flags := { c.flags with writeEvents := !c.flags.writeEvents } }

/-- One iteration of the drain loop in `accept_nudge` for a popped fd:
`EPOLL_CTL_ADD` with `ep_event = { .events = events_by_write_flag[1] }`
(the designated initializer leaves `.data.ptr` zeroed, i.e. NULL), then
`spawn_coro` and the initial `resume_coro_if_needed`.  A failing `ADD`
(fd already registered) is logged and skips the rest. -/
def accept_handed_off (w : Worker) (fd : Nat) (coro_new_ok : Bool)
    (o : CoroOutcome) : Worker :=
  if (w.epoll fd).isSome then w
  else
    let entry : EpollEntry := { events := events_by_write_flag true, dataPtr := none }
    let w1 := { w with epoll := fun j => if j = fd then some entry else w.epoll j }
    let w2 := { w1 with dq := spawn_coro w1.dq fd coro_new_ok }
    resume_coro_if_needed w2 fd o

/-- The per-event dispatch of `thread_io_loop` for an event whose
`data.ptr` is a connection: on `EPOLLRDHUP | EPOLLHUP` destroy the
coroutine, otherwise `resume_coro_if_needed` followed unconditionally by
`death_queue_move_to_last`. -/
def handle_conn_event (w : Worker) (i : Nat) (hup : Bool) (o : CoroOutcome) :
    Worker :=
  if hup then { w with dq := destroy_coro w.dq i }
  else
    let w1 := resume_coro_if_needed w i o
    { w1 with dq := death_queue_move_to_last w1.dq i }

/-!
Abstract view of the death queue: the list of slot indices obtained by
following `next` links from the sentinel head.
-/

/-- The link index of the last node of `xs`, or `p` when `xs` is empty. -/
def lastLinkFrom (p : Int) (xs : List Nat) : Int :=
  match xs.getLast? with
  | none => p
  | some l => (l : Int)

/-- `chainBody dq p xs` holds when, starting from link index `p`, the
`next`/`prev` fields thread exactly through the nodes of `xs` in order
(not constraining the `next` of the final node). -/
def chainBody (dq : DeathQueue) : Int → List Nat → Bool
  | _, [] => true
  | p, x :: xs =>
    (death_queue_get_next dq p == (x : Int)) &&
    ((dq.conns x).prev == p) && chainBody dq (x : Int) xs

/-- `represents dq xs` holds when the death queue's circular list is exactly
`xs` from head to tail: the forward chain is `xs`, the last node's `next`
points back at the head (`-1`), and `head.prev` points at the last node. -/
def represents (dq : DeathQueue) (xs : List Nat) : Bool :=
  chainBody dq (-1) xs &&
  (death_queue_get_next dq (lastLinkFrom (-1) xs) == -1) &&
  (dq.head.prev == lastLinkFrom (-1) xs)

/-- Executable traversal of the queue: follow `next` links from the head for
at most `fuel` steps, stopping at a negative link. -/
def chainList (dq : DeathQueue) : Int → Nat → List Nat
  | _, 0 => []
  | p, fuel + 1 =>
    let n := death_queue_get_next dq p
    if n < 0 then [] else n.toNat :: chainList dq n fuel


/-- An all-zero connection slot, as `lwan_thread_add_client` installs it
(`(struct lwan_connection) { .thread = t }` zeroes every other field). -/
def conn_zero : LwanConnection :=
  { flags := { keepAlive := false, isAlive := false, shouldResume := false,
               writeEvents := false, mustRead := false },
    time_to_die := 0, prev := 0, next := 0, coro := false }

/-- A worker right after `death_queue_init` with `keep_alive_timeout = 5`,
an all-zero connection table and an empty epoll set. -/
def worker_zero : Worker :=
  { dq := death_queue_init (fun _ => conn_zero) 5, epoll := fun _ => none }

/-- A live connection in slot 0: `CONN_IS_ALIVE | CONN_SHOULD_RESUME_CORO`
set, `CONN_WRITE_EVENTS` clear, a coroutine present, sole element of the
death queue. -/
def conn_armed : LwanConnection :=
  { flags := { keepAlive := false, isAlive := true, shouldResume := true,
               writeEvents := false, mustRead := false },
    time_to_die := 5, prev := -1, next := -1, coro := true }

/-- A worker whose only connection (slot/fd 0) is read-armed
edge-triggered in the epoll set with its user pointer set, consistent with
its cleared `CONN_WRITE_EVENTS` flag. -/
def worker_armed : Worker :=
  { dq := { conns := fun j => if j = 0 then conn_armed else conn_zero
            head := { flags := conn_zero.flags, time_to_die := 0,
                      prev := 0, next := 0, coro := false }
            time := 0
            keep_alive_timeout := 5 }
    epoll := fun j => if j = 0 then
        some { events := events_by_write_flag true, dataPtr := some 0 }
      else none }

/-- A two-element death queue `[1, 2]` with deadlines 1 and 5 at tick 0. -/
def dq_two : DeathQueue :=
  { conns := fun j =>
      if j = 1 then
        { flags := { keepAlive := false, isAlive := true, shouldResume := true,
                     writeEvents := false, mustRead := false },
          time_to_die := 1, prev := -1, next := 2, coro := true }
      else if j = 2 then
        { flags := { keepAlive := false, isAlive := true, shouldResume := true,
                     writeEvents := false, mustRead := false },
          time_to_die := 5, prev := 1, next := -1, coro := true }
      else conn_zero
    head := { flags := conn_zero.flags, time_to_die := 0,
              prev := 2, next := 1, coro := false }
    time := 0
    keep_alive_timeout := 5 }

/-- `dq_two` with a defensively reset (unlinked) node in slot 7. -/
def dq_two_reset7 : DeathQueue :=
  { dq_two with conns := fun j =>
      if j = 7 then { conn_zero with prev := -1, next := -1 }
      else dq_two.conns j }

/-- The death-queue operations the spec's claim quantifies over: starting
from a freshly initialised queue (`death_queue_init` with a sub-`2^16`
keep-alive timeout, as `keep_alive_timeout` is a C `unsigned short`),
interleave successful spawns, re-seats of keep-alive/resumable connections,
and timeout sweeps that do not wrap the 32-bit tick counter.  The list is
the abstract queue contents. -/
inductive DqReach : DeathQueue → List Nat → Prop where
  | init (conns0 : Nat → LwanConnection) (K : Nat) (hK : K < 65536) :
      DqReach (death_queue_init conns0 K) []
  | spawn (dq : DeathQueue) (xs : List Nat) (i : Nat) :
      DqReach dq xs → i ∉ xs → DqReach (spawn_coro dq i true) (xs ++ [i])
  | move (dq : DeathQueue) (xs : List Nat) (i : Nat) :
      DqReach dq xs → i ∈ xs →
      ((dq.conns i).flags.keepAlive || (dq.conns i).flags.shouldResume) = true →
      DqReach (death_queue_move_to_last dq i) (xs.erase i ++ [i])
  | kill (dq : DeathQueue) (xs : List Nat) :
      DqReach dq xs → dq.time + 1 + dq.keep_alive_timeout < uintMod →
      DqReach (death_queue_kill_waiting dq (xs.length + 1))
        (xs.dropWhile fun j =>
          decide ((dq.conns j).time_to_die ≤ (dq.time + 1) % uintMod))

/-!
Basic accessor lemmas.
-/

@[simp]
theorem updateConn_conns_self (dq : DeathQueue) (i : Nat)
    (f : LwanConnection → LwanConnection) :
    (updateConn dq i f).conns i = f (dq.conns i) := by
  simp [updateConn]

@[simp]
theorem updateConn_conns_ne (dq : DeathQueue) (i j : Nat)
    (f : LwanConnection → LwanConnection) (h : j ≠ i) :
    (updateConn dq i f).conns j = dq.conns j := by
  simp [updateConn, h]

@[simp]
theorem updateConn_head (dq : DeathQueue) (i : Nat)
    (f : LwanConnection → LwanConnection) :
    (updateConn dq i f).head = dq.head := rfl

@[simp]
theorem updateConn_time (dq : DeathQueue) (i : Nat)
    (f : LwanConnection → LwanConnection) :
    (updateConn dq i f).time = dq.time := rfl

@[simp]
theorem updateConn_kat (dq : DeathQueue) (i : Nat)
    (f : LwanConnection → LwanConnection) :
    (updateConn dq i f).keep_alive_timeout = dq.keep_alive_timeout := rfl

@[simp]
theorem death_queue_get_next_coe (dq : DeathQueue) (x : Nat) :
    death_queue_get_next dq (x : Int) = (dq.conns x).next := by
  simp [death_queue_get_next]

theorem death_queue_get_next_neg (dq : DeathQueue) {r : Int} (h : r < 0) :
    death_queue_get_next dq r = dq.head.next := by
  simp [death_queue_get_next, h]

/-!
Normal forms for `death_queue_insert` and `death_queue_remove`: each is a
single record update, split along the signs of the neighbouring links.
-/

theorem insert_eq_of_neg (dq : DeathQueue) (i : Nat) (h : dq.head.prev < 0) :
    death_queue_insert dq i =
      { dq with
        conns := fun j => if j = i then
            { dq.conns j with prev := dq.head.prev, next := -1 }
          else dq.conns j
        head := { dq.head with prev := (i : Int), next := (i : Int) } } := by
  unfold death_queue_insert death_queue_set_next
  simp only [updateConn_head]
  rw [if_pos h]
  ext j
  all_goals simp [updateConn]
  all_goals split_ifs <;> simp_all

theorem insert_eq_of_nonneg (dq : DeathQueue) (i : Nat) (h : 0 ≤ dq.head.prev)
    (hne : dq.head.prev.toNat ≠ i) :
    death_queue_insert dq i =
      { dq with
        conns := fun j =>
          if j = i then { dq.conns j with prev := dq.head.prev, next := -1 }
          else if j = dq.head.prev.toNat then { dq.conns j with next := (i : Int) }
          else dq.conns j
        head := { dq.head with prev := (i : Int) } } := by
  unfold death_queue_insert death_queue_set_next
  simp only [updateConn_head]
  rw [if_neg (by omega)]
  ext j
  all_goals simp [updateConn]
  all_goals split_ifs <;> simp_all

theorem remove_eq_of_neg_neg (dq : DeathQueue) (i : Nat)
    (hp : (dq.conns i).prev < 0) (hn : (dq.conns i).next < 0) :
    death_queue_remove dq i =
      { dq with
        conns := fun j => if j = i then
            { dq.conns j with prev := -1, next := -1 }
          else dq.conns j
        head := { dq.head with prev := (dq.conns i).prev,
                               next := (dq.conns i).next } } := by
  ext j
  all_goals simp [death_queue_remove, death_queue_set_prev,
    death_queue_set_next, updateConn, hp, hn]
  all_goals split_ifs <;> simp_all

theorem remove_eq_of_neg_nonneg (dq : DeathQueue) (i : Nat)
    (hp : (dq.conns i).prev < 0) (hn : 0 ≤ (dq.conns i).next)
    (hni : (dq.conns i).next.toNat ≠ i) :
    death_queue_remove dq i =
      { dq with
        conns := fun j =>
          if j = i then { dq.conns j with prev := -1, next := -1 }
          else if j = (dq.conns i).next.toNat then
            { dq.conns j with prev := (dq.conns i).prev }
          else dq.conns j
        head := { dq.head with next := (dq.conns i).next } } := by
  have hn' : ¬ ((dq.conns i).next < 0) := not_lt.mpr hn
  ext j
  all_goals simp [death_queue_remove, death_queue_set_prev,
    death_queue_set_next, updateConn, hp, hn', hni, Ne.symm hni]
  all_goals split_ifs <;> simp_all

theorem remove_eq_of_nonneg_neg (dq : DeathQueue) (i : Nat)
    (hp : 0 ≤ (dq.conns i).prev) (hn : (dq.conns i).next < 0)
    (hpi : (dq.conns i).prev.toNat ≠ i) :
    death_queue_remove dq i =
      { dq with
        conns := fun j =>
          if j = i then { dq.conns j with prev := -1, next := -1 }
          else if j = (dq.conns i).prev.toNat then
            { dq.conns j with next := (dq.conns i).next }
          else dq.conns j
        head := { dq.head with prev := (dq.conns i).prev } } := by
  have hp' : ¬ ((dq.conns i).prev < 0) := not_lt.mpr hp
  ext j
  all_goals simp [death_queue_remove, death_queue_set_prev,
    death_queue_set_next, updateConn, hp', hn, hpi, Ne.symm hpi]
  all_goals split_ifs <;> simp_all

theorem remove_eq_of_nonneg_nonneg (dq : DeathQueue) (i : Nat)
    (hp : 0 ≤ (dq.conns i).prev) (hn : 0 ≤ (dq.conns i).next)
    (hpi : (dq.conns i).prev.toNat ≠ i) (hni : (dq.conns i).next.toNat ≠ i)
    (hpn : (dq.conns i).prev.toNat ≠ (dq.conns i).next.toNat) :
    death_queue_remove dq i =
      { dq with
        conns := fun j =>
          if j = i then { dq.conns j with prev := -1, next := -1 }
          else if j = (dq.conns i).next.toNat then
            { dq.conns j with prev := (dq.conns i).prev }
          else if j = (dq.conns i).prev.toNat then
            { dq.conns j with next := (dq.conns i).next }
          else dq.conns j } := by
  have hp' : ¬ ((dq.conns i).prev < 0) := not_lt.mpr hp
  have hn' : ¬ ((dq.conns i).next < 0) := not_lt.mpr hn
  ext j
  all_goals simp [death_queue_remove, death_queue_set_prev,
    death_queue_set_next, updateConn, hp', hn', hpi, hni, hpn,
    Ne.symm hpi, Ne.symm hni, Ne.symm hpn]
  all_goals split_ifs <;> simp_all

/-!
List-level lemmas about `lastLinkFrom` and `chainBody`.
-/

@[simp]
theorem lastLinkFrom_nil (p : Int) : lastLinkFrom p [] = p := rfl

@[simp]
theorem lastLinkFrom_snoc (p : Int) (xs : List Nat) (i : Nat) :
    lastLinkFrom p (xs ++ [i]) = (i : Int) := by
  simp [lastLinkFrom]

theorem lastLinkFrom_cons (p : Int) (x : Nat) (xs : List Nat) :
    lastLinkFrom p (x :: xs) = lastLinkFrom (x : Int) xs := by
  rcases xs with - | ⟨y, ys⟩
  · rfl
  · unfold lastLinkFrom
    rw [List.getLast?_cons_cons]
    rcases h : (y :: ys).getLast? with - | l
    · simp [List.getLast?_eq_none_iff] at h
    · rfl

theorem lastLinkFrom_nonneg_or (p : Int) (xs : List Nat) :
    lastLinkFrom p xs = p ∨ ∃ l ∈ xs, lastLinkFrom p xs = (l : Int) := by
  rcases h : xs.getLast? with - | l
  · left; simp [lastLinkFrom, h]
  · right
    refine ⟨l, ?_, by simp [lastLinkFrom, h]⟩
    rcases List.mem_getLast?_eq_getLast (l := xs) (x := l) (by simp [h]) with
      ⟨hne, hl⟩
    exact hl ▸ List.getLast_mem hne

@[simp]
theorem chainBody_nil (dq : DeathQueue) (p : Int) : chainBody dq p [] = true := rfl

theorem chainBody_cons (dq : DeathQueue) (p : Int) (x : Nat) (xs : List Nat) :
    chainBody dq p (x :: xs) =
      ((death_queue_get_next dq p == (x : Int)) && ((dq.conns x).prev == p) &&
        chainBody dq (x : Int) xs) := rfl

theorem chainBody_congr (dq' dq : DeathQueue) :
    ∀ (xs : List Nat) (p : Int),
      death_queue_get_next dq' p = death_queue_get_next dq p →
      (∀ x ∈ xs, (dq'.conns x).prev = (dq.conns x).prev) →
      (∀ x ∈ xs.dropLast, (dq'.conns x).next = (dq.conns x).next) →
      chainBody dq' p xs = chainBody dq p xs
  | [], p, _, _, _ => rfl
  | x :: xs, p, hn, hprev, hnext => by
    have hx : (dq'.conns x).prev = (dq.conns x).prev :=
      hprev x (List.mem_cons_self x xs)
    rcases xs with - | ⟨y, ys⟩
    · simp only [chainBody_cons, chainBody_nil, hn, hx]
    · have hxd : x ∈ (x :: y :: ys).dropLast := by
        simp [List.dropLast]
      have hrec := chainBody_congr dq' dq (y :: ys) (x : Int)
        (by simpa using hnext x hxd)
        (fun z hz => hprev z (List.mem_cons_of_mem x hz))
        (fun z hz => hnext z (by
          rcases ys with - | ⟨w, ws⟩
          · simp at hz
          · simpa [List.dropLast] using Or.inr hz))
      rw [chainBody_cons dq' p x (y :: ys), hrec, hn, hx,
        ← chainBody_cons dq p x (y :: ys)]

theorem chainBody_snoc (dq : DeathQueue) :
    ∀ (xs : List Nat) (p : Int) (i : Nat),
      chainBody dq p (xs ++ [i]) =
        (chainBody dq p xs &&
         (death_queue_get_next dq (lastLinkFrom p xs) == (i : Int)) &&
         ((dq.conns i).prev == lastLinkFrom p xs))
  | [], p, i => by simp [chainBody_cons]
  | x :: xs, p, i => by
    rw [List.cons_append, chainBody_cons, chainBody_cons,
      chainBody_snoc dq xs (x : Int) i, lastLinkFrom_cons]
    rcases hb : chainBody dq (x : Int) xs <;> simp [Bool.and_assoc]

theorem chainBody_append (dq : DeathQueue) :
    ∀ (as bs : List Nat) (p : Int),
      chainBody dq p (as ++ bs) =
        (chainBody dq p as && chainBody dq (lastLinkFrom p as) bs)
  | [], bs, p => by simp
  | a :: as, bs, p => by
    rw [List.cons_append, chainBody_cons, chainBody_cons,
      chainBody_append dq as bs (a : Int), lastLinkFrom_cons]
    rcases hb : chainBody dq (a : Int) as <;> simp [Bool.and_assoc]

/-!
Decomposition of `represents` and facts about the tail link.
-/

theorem represents_iff (dq : DeathQueue) (xs : List Nat) :
    represents dq xs = true ↔
      chainBody dq (-1) xs = true ∧
      death_queue_get_next dq (lastLinkFrom (-1) xs) = -1 ∧
      dq.head.prev = lastLinkFrom (-1) xs := by
  simp [represents, Bool.and_assoc, and_assoc]

theorem lastLinkFrom_of_ne_nil (p : Int) (xs : List Nat) (h : xs ≠ []) :
    lastLinkFrom p xs = ((xs.getLast h : Nat) : Int) := by
  simp [lastLinkFrom, List.getLast?_eq_getLast_of_ne_nil h]

theorem getLast_not_mem_dropLast (xs : List Nat) (h : xs ≠ []) (hnd : xs.Nodup) :
    xs.getLast h ∉ xs.dropLast := by
  have hsplit : xs.dropLast ++ [xs.getLast h] = xs :=
    List.dropLast_append_getLast? (xs.getLast h)
      (by simp [List.getLast?_eq_getLast_of_ne_nil h])
  intro hmem
  rw [← hsplit] at hnd
  exact (List.nodup_append.mp hnd).2.2 hmem (List.mem_singleton_self _)

theorem lastLinkFrom_ne_of_not_mem (xs : List Nat) (i : Nat) (hi : i ∉ xs) :
    lastLinkFrom (-1) xs ≠ (i : Int) := by
  rcases lastLinkFrom_nonneg_or (-1) xs with h | ⟨l, hl, h⟩
  · rw [h]; omega
  · rw [h]
    intro hc
    have hli : l = i := by exact_mod_cast hc
    exact hi (hli ▸ hl)

/-- `death_queue_insert` refines appending to the abstract queue list. -/
theorem represents_insert (dq : DeathQueue) (xs : List Nat) (i : Nat)
    (hrep : represents dq xs = true) (hnd : xs.Nodup) (hi : i ∉ xs) :
    represents (death_queue_insert dq i) (xs ++ [i]) = true := by
  obtain ⟨hchain, hend, hhp⟩ := (represents_iff dq xs).1 hrep
  have hi0 : ¬ ((i : Int) < 0) := by omega
  by_cases hne : xs = []
  · subst hne
    simp only [lastLinkFrom_nil] at hhp
    rw [insert_eq_of_neg dq i (by omega)]
    simp [represents, chainBody_cons, death_queue_get_next, hhp,
      lastLinkFrom, hi0]
  · have hlast := lastLinkFrom_of_ne_nil (-1) xs hne
    set lst := xs.getLast hne with hlstdef
    have hlmem : lst ∈ xs := List.getLast_mem hne
    have hli : lst ≠ i := fun hc => hi (hc ▸ hlmem)
    have hp0 : 0 ≤ dq.head.prev := by rw [hhp, hlast]; omega
    have hptn : dq.head.prev.toNat = lst := by rw [hhp, hlast]; simp
    have hpti : dq.head.prev.toNat ≠ i := by rw [hptn]; exact hli
    have hlnd : lst ∉ xs.dropLast := getLast_not_mem_dropLast xs hne hnd
    rw [insert_eq_of_nonneg dq i hp0 hpti]
    set dq' : DeathQueue :=
      { dq with
        conns := fun j =>
          if j = i then { dq.conns j with prev := dq.head.prev, next := -1 }
          else if j = dq.head.prev.toNat then { dq.conns j with next := (i : Int) }
          else dq.conns j
        head := { dq.head with prev := (i : Int) } } with hdq'
    rw [represents_iff]
    refine ⟨?_, ?_, ?_⟩
    · rw [chainBody_snoc]
      have hbody : chainBody dq' (-1) xs = chainBody dq (-1) xs := by
        apply chainBody_congr
        · simp [death_queue_get_next, hdq']
        · intro z hz
          have hzi : z ≠ i := fun hc => hi (hc ▸ hz)
          by_cases hzl : z = dq.head.prev.toNat <;>
            simp [hdq', hzi, hzl, hpti]
        · intro z hz
          have hzi : z ≠ i := fun hc => hi (hc ▸ List.dropLast_subset xs hz)
          have hzl : z ≠ lst := fun hc => hlnd (hc ▸ hz)
          simp [hdq', hzi, hptn, hzl]
      have hjun : death_queue_get_next dq' (lastLinkFrom (-1) xs) = (i : Int) := by
        rw [hlast]
        simp only [death_queue_get_next_coe]
        simp [hdq', hli, ← hptn, hpti]
      have hprev : (dq'.conns i).prev = lastLinkFrom (-1) xs := by
        simp [hdq', hhp]
      simp [hbody, hchain, hjun, hprev, hhp]
    · rw [lastLinkFrom_snoc]
      simp [death_queue_get_next, hdq', hli, hi0]
    · simp [hdq', lastLinkFrom_snoc]

theorem lastLinkFrom_append_of_ne_nil (p q : Int) (as bs : List Nat)
    (h : bs ≠ []) : lastLinkFrom p (as ++ bs) = lastLinkFrom q bs := by
  unfold lastLinkFrom
  rw [List.getLast?_append_of_ne_nil as h]
  rcases hb : bs.getLast? with - | l
  · rw [List.getLast?_eq_none_iff] at hb
    exact absurd hb h
  · rfl

theorem lastLinkFrom_irrel (p q : Int) (xs : List Nat) (h : xs ≠ []) :
    lastLinkFrom p xs = lastLinkFrom q xs := by
  rw [lastLinkFrom_of_ne_nil p xs h, lastLinkFrom_of_ne_nil q xs h]

/-- `death_queue_remove` refines erasing from the abstract queue list. -/
theorem represents_remove (dq : DeathQueue) (as bs : List Nat) (i : Nat)
    (hrep : represents dq (as ++ i :: bs) = true)
    (hnd : (as ++ i :: bs).Nodup) :
    represents (death_queue_remove dq i) (as ++ bs) = true := by
  obtain ⟨hchain, hend, hhp⟩ := (represents_iff _ _).1 hrep
  have hndsplit := List.nodup_append.mp hnd
  have hnd_as : as.Nodup := hndsplit.1
  have hnd_ibs : (i :: bs).Nodup := hndsplit.2.1
  have hdisj : as.Disjoint (i :: bs) := hndsplit.2.2
  have hias : i ∉ as := fun h => hdisj h (List.mem_cons_self _ _)
  have hibs : i ∉ bs := (List.nodup_cons.mp hnd_ibs).1
  have hnd_bs : bs.Nodup := (List.nodup_cons.mp hnd_ibs).2
  rw [chainBody_append dq as (i :: bs) (-1), Bool.and_eq_true] at hchain
  obtain ⟨hcas, hcibs⟩ := hchain
  rw [chainBody_cons, Bool.and_eq_true, Bool.and_eq_true] at hcibs
  obtain ⟨⟨hjun, hiprev⟩, hcbs⟩ := hcibs
  rw [beq_iff_eq] at hjun hiprev
  by_cases hasnil : as = []
  · subst hasnil
    simp only [lastLinkFrom_nil, List.nil_append] at hiprev hjun hend hhp ⊢
    rcases hbs : bs with - | ⟨b, bs'⟩
    · subst hbs
      have hnexti : (dq.conns i).next = -1 := by
        have hL : lastLinkFrom (-1) [i] = (i : Int) := by
          simp [lastLinkFrom]
        rw [hL] at hend
        simpa using hend
      rw [remove_eq_of_neg_neg dq i (by omega) (by omega)]
      simp [represents, lastLinkFrom, death_queue_get_next, hiprev, hnexti]
    · subst hbs
      have hbi : b ≠ i := fun hc => hibs (hc ▸ List.mem_cons_self _ _)
      rw [chainBody_cons, Bool.and_eq_true, Bool.and_eq_true] at hcbs
      obtain ⟨⟨hnexti, hbprev⟩, hcbs'⟩ := hcbs
      rw [beq_iff_eq] at hnexti hbprev
      rw [death_queue_get_next_coe] at hnexti
      rw [remove_eq_of_neg_nonneg dq i (by omega) (by rw [hnexti]; omega)
        (by simp [hnexti, hbi])]
      set R : DeathQueue :=
        { dq with
          conns := fun j =>
            if j = i then { dq.conns j with prev := -1, next := -1 }
            else if j = (dq.conns i).next.toNat then
              { dq.conns j with prev := (dq.conns i).prev }
            else dq.conns j
          head := { dq.head with next := (dq.conns i).next } } with hR
      have hsame : lastLinkFrom (-1) (i :: b :: bs') =
          lastLinkFrom (-1) (b :: bs') := by
        rw [lastLinkFrom_cons]
        exact lastLinkFrom_irrel _ _ _ (by simp)
      rw [represents_iff]
      refine ⟨?_, ?_, ?_⟩
      · rw [chainBody_cons]
        have h1 : death_queue_get_next R (-1) = (b : Int) := by
          simp [death_queue_get_next, hR, hnexti]
        have h3 : chainBody R (b : Int) bs' = chainBody dq (b : Int) bs' := by
          apply chainBody_congr
          · simp [hR, hbi, hnexti]
          · intro z hz
            have hzi : z ≠ i := fun hc => hibs (hc ▸ List.mem_cons_of_mem b hz)
            have hzb : z ≠ b := fun hc =>
              (List.nodup_cons.mp hnd_bs).1 (hc ▸ hz)
            simp [hR, hzi, hzb, hnexti]
          · intro z hz
            have hz' : z ∈ bs' := List.dropLast_subset bs' hz
            have hzi : z ≠ i := fun hc => hibs (hc ▸ List.mem_cons_of_mem b hz')
            have hzb : z ≠ b := fun hc =>
              (List.nodup_cons.mp hnd_bs).1 (hc ▸ hz')
            simp [hR, hzi, hzb, hnexti]
        rw [h1, h3]
        simp [hR, hbi, hnexti, hiprev, hcbs']
      · set z := (b :: bs').getLast (by simp) with hz
        have hzmem : z ∈ b :: bs' := List.getLast_mem _
        have hzi : z ≠ i := fun hc => hibs (hc ▸ hzmem)
        have hLnew : lastLinkFrom (-1) (b :: bs') = (z : Int) :=
          lastLinkFrom_of_ne_nil _ _ (by simp)
        rw [hLnew, death_queue_get_next_coe]
        have hnx : (R.conns z).next = (dq.conns z).next := by
          by_cases hzb : z = b <;> simp [hR, hzi, hzb, hnexti, hbi]
        rw [hnx]
        rw [hsame, hLnew, death_queue_get_next_coe] at hend
        exact hend
      · have hhp' : R.head.prev = dq.head.prev := by simp [hR]
        rw [hhp', hhp, hsame]
  · -- `as` is non-empty: the predecessor of `i` is a real node
    have hlastA := lastLinkFrom_of_ne_nil (-1) as hasnil
    set lastA := as.getLast hasnil with hlastAdef
    have hlamem : lastA ∈ as := List.getLast_mem hasnil
    have hlai : lastA ≠ i := fun hc => hias (hc ▸ hlamem)
    have hiprev' : (dq.conns i).prev = (lastA : Int) := by rw [hiprev, hlastA]
    have hlabs : lastA ∉ bs := fun hc =>
      hdisj hlamem (List.mem_cons_of_mem i hc)
    have hjunA : (dq.conns lastA).next = (i : Int) := by
      rw [hlastA, death_queue_get_next_coe] at hjun
      exact hjun
    rcases hbs : bs with - | ⟨b, bs'⟩
    · subst hbs
      have hnexti : (dq.conns i).next = -1 := by
        have hL : lastLinkFrom (-1) (as ++ [i]) = (i : Int) := by
          rw [lastLinkFrom_append_of_ne_nil _ (-1) as [i] (by simp)]
          simp [lastLinkFrom]
        rw [hL] at hend
        simpa using hend
      rw [remove_eq_of_nonneg_neg dq i (by rw [hiprev']; omega) (by omega)
        (by simp [hiprev', hlai])]
      set R : DeathQueue :=
        { dq with
          conns := fun j =>
            if j = i then { dq.conns j with prev := -1, next := -1 }
            else if j = (dq.conns i).prev.toNat then
              { dq.conns j with next := (dq.conns i).next }
            else dq.conns j
          head := { dq.head with prev := (dq.conns i).prev } } with hR
      rw [represents_iff]
      have hlnd : lastA ∉ as.dropLast := getLast_not_mem_dropLast as hasnil hnd_as
      refine ⟨?_, ?_, ?_⟩
      · rw [List.append_nil]
        have hbody : chainBody R (-1) as = chainBody dq (-1) as := by
          apply chainBody_congr
          · simp [death_queue_get_next, hR]
          · intro z hz
            have hzi : z ≠ i := fun hc => hias (hc ▸ hz)
            by_cases hzl : z = lastA <;>
              simp [hR, hzi, hzl, hiprev', hlai]
          · intro z hz
            have hzi : z ≠ i := fun hc => hias (hc ▸ List.dropLast_subset as hz)
            have hzl : z ≠ lastA := fun hc => hlnd (hc ▸ hz)
            simp [hR, hzi, hzl, hiprev']
        rw [hbody]
        exact hcas
      · rw [List.append_nil, hlastA, death_queue_get_next_coe]
        simp [hR, hlai, hiprev', hnexti]
      · rw [List.append_nil, hlastA]
        simp [hR, hiprev']
    · subst hbs
      have hbi : b ≠ i := fun hc => hibs (hc ▸ List.mem_cons_self _ _)
      have hbas : b ∉ as := fun hc =>
        hdisj hc (List.mem_cons_of_mem i (List.mem_cons_self _ _))
      have hbla : b ≠ lastA := fun hc => hbas (hc ▸ hlamem)
      have hlab : lastA ≠ b := Ne.symm hbla
      rw [chainBody_cons, Bool.and_eq_true, Bool.and_eq_true] at hcbs
      obtain ⟨⟨hnexti, hbprev⟩, hcbs'⟩ := hcbs
      rw [beq_iff_eq] at hnexti hbprev
      rw [death_queue_get_next_coe] at hnexti
      rw [remove_eq_of_nonneg_nonneg dq i (by rw [hiprev']; omega)
        (by rw [hnexti]; omega) (by simp [hiprev', hlai])
        (by simp [hnexti, hbi]) (by simp [hiprev', hnexti]; exact hbla ∘ Eq.symm)]
      set R : DeathQueue :=
        { dq with
          conns := fun j =>
            if j = i then { dq.conns j with prev := -1, next := -1 }
            else if j = (dq.conns i).next.toNat then
              { dq.conns j with prev := (dq.conns i).prev }
            else if j = (dq.conns i).prev.toNat then
              { dq.conns j with next := (dq.conns i).next }
            else dq.conns j } with hR
      have hlnd : lastA ∉ as.dropLast := getLast_not_mem_dropLast as hasnil hnd_as
      have hsame : lastLinkFrom (-1) (as ++ i :: b :: bs') =
          lastLinkFrom (-1) (as ++ b :: bs') := by
        rw [lastLinkFrom_append_of_ne_nil _ (-1) as _ (by simp),
          lastLinkFrom_append_of_ne_nil _ (-1) as _ (by simp),
          lastLinkFrom_cons]
        exact lastLinkFrom_irrel _ _ _ (by simp)
      rw [represents_iff]
      refine ⟨?_, ?_, ?_⟩
      · rw [chainBody_append]
        have hbody : chainBody R (-1) as = chainBody dq (-1) as := by
          apply chainBody_congr
          · simp [death_queue_get_next, hR]
          · intro w hw
            have hwi : w ≠ i := fun hc => hias (hc ▸ hw)
            have hwb : w ≠ b := fun hc => hbas (hc ▸ hw)
            by_cases hwl : w = lastA <;>
              simp [hR, hwi, hwb, hwl, hiprev', hnexti, hbla, hlab, hlai]
          · intro w hw
            have hw' : w ∈ as := List.dropLast_subset as hw
            have hwi : w ≠ i := fun hc => hias (hc ▸ hw')
            have hwb : w ≠ b := fun hc => hbas (hc ▸ hw')
            have hwl : w ≠ lastA := fun hc => hlnd (hc ▸ hw)
            simp [hR, hwi, hwb, hwl, hiprev', hnexti]
        have hcons : chainBody R (lastLinkFrom (-1) as) (b :: bs') = true := by
          rw [hlastA, chainBody_cons]
          have hn1 : death_queue_get_next R (lastA : Int) = (b : Int) := by
            rw [death_queue_get_next_coe]
            simp [hR, hlai, hiprev', hnexti, hlab]
          have hp1 : (R.conns b).prev = (lastA : Int) := by
            simp [hR, hbi, hnexti, hiprev']
          have h3 : chainBody R (b : Int) bs' = chainBody dq (b : Int) bs' := by
            apply chainBody_congr
            · simp [hR, hbi, hnexti]
            · intro w hw
              have hwi : w ≠ i := fun hc => hibs (hc ▸ List.mem_cons_of_mem b hw)
              have hwb : w ≠ b := fun hc =>
                (List.nodup_cons.mp hnd_bs).1 (hc ▸ hw)
              have hwl : w ≠ lastA := fun hc =>
                hlabs (hc ▸ List.mem_cons_of_mem b hw)
              simp [hR, hwi, hwb, hwl, hnexti, hiprev']
            · intro w hw
              have hw' : w ∈ bs' := List.dropLast_subset bs' hw
              have hwi : w ≠ i := fun hc => hibs (hc ▸ List.mem_cons_of_mem b hw')
              have hwb : w ≠ b := fun hc =>
                (List.nodup_cons.mp hnd_bs).1 (hc ▸ hw')
              have hwl : w ≠ lastA := fun hc =>
                hlabs (hc ▸ List.mem_cons_of_mem b hw')
              simp [hR, hwi, hwb, hwl, hnexti, hiprev']
          rw [hn1, h3]
          simp [hR, hbi, hnexti, hiprev', hcbs']
        rw [hbody, hcons]
        simp [hcas]
      · set z := (b :: bs').getLast (by simp) with hz
        have hzmem : z ∈ b :: bs' := List.getLast_mem _
        have hzi : z ≠ i := fun hc => hibs (hc ▸ hzmem)
        have hzl : z ≠ lastA := fun hc => hlabs (hc ▸ hzmem)
        have hLnew : lastLinkFrom (-1) (as ++ b :: bs') = (z : Int) := by
          rw [lastLinkFrom_append_of_ne_nil _ (-1) as _ (by simp)]
          exact lastLinkFrom_of_ne_nil _ _ (by simp)
        rw [hLnew, death_queue_get_next_coe]
        have hnx : (R.conns z).next = (dq.conns z).next := by
          by_cases hzb : z = b <;>
            simp [hR, hzi, hzb, hzl, hnexti, hiprev', hbi, hlab]
        rw [hnx]
        rw [hsame, hLnew, death_queue_get_next_coe] at hend
        exact hend
      · have hhp' : R.head.prev = dq.head.prev := by simp [hR]
        rw [hhp', hhp, hsame]

/-- `represents` only looks at link fields and the head links. -/
theorem represents_congr_links (dq' dq : DeathQueue) (xs : List Nat)
    (hhp : dq'.head.prev = dq.head.prev) (hhn : dq'.head.next = dq.head.next)
    (hc : ∀ j, (dq'.conns j).prev = (dq.conns j).prev ∧
               (dq'.conns j).next = (dq.conns j).next) :
    represents dq' xs = represents dq xs := by
  unfold represents
  have h1 : chainBody dq' (-1) xs = chainBody dq (-1) xs :=
    chainBody_congr dq' dq xs (-1)
      (by simp [death_queue_get_next, hhn])
      (fun z _ => (hc z).1) (fun z _ => (hc z).2)
  have h2 : death_queue_get_next dq' (lastLinkFrom (-1) xs) =
      death_queue_get_next dq (lastLinkFrom (-1) xs) := by
    unfold death_queue_get_next
    split_ifs
    · exact hhn
    · exact (hc _).2
  rw [h1, h2, hhp]

theorem represents_of_links_eq (dq' dq : DeathQueue) (xs : List Nat)
    (hhp : dq'.head.prev = dq.head.prev) (hhn : dq'.head.next = dq.head.next)
    (hc : ∀ j, (dq'.conns j).prev = (dq.conns j).prev ∧
               (dq'.conns j).next = (dq.conns j).next)
    (h : represents dq xs = true) : represents dq' xs = true := by
  rw [represents_congr_links dq' dq xs hhp hhn hc]
  exact h

theorem insert_conns_nonlink (dq : DeathQueue) (i j : Nat) :
    ((death_queue_insert dq i).conns j).flags = (dq.conns j).flags ∧
    ((death_queue_insert dq i).conns j).time_to_die = (dq.conns j).time_to_die ∧
    ((death_queue_insert dq i).conns j).coro = (dq.conns j).coro := by
  simp only [death_queue_insert, death_queue_set_next, updateConn]
  split_ifs <;> simp <;> split_ifs <;> simp

theorem remove_conns_nonlink (dq : DeathQueue) (i j : Nat) :
    ((death_queue_remove dq i).conns j).flags = (dq.conns j).flags ∧
    ((death_queue_remove dq i).conns j).time_to_die = (dq.conns j).time_to_die ∧
    ((death_queue_remove dq i).conns j).coro = (dq.conns j).coro := by
  simp only [death_queue_remove, death_queue_set_prev, death_queue_set_next,
    updateConn]
  split_ifs <;> simp <;> split_ifs <;> simp

@[simp]
theorem insert_time (dq : DeathQueue) (i : Nat) :
    (death_queue_insert dq i).time = dq.time := by
  simp only [death_queue_insert, death_queue_set_next, updateConn]
  split_ifs <;> rfl

@[simp]
theorem insert_kat (dq : DeathQueue) (i : Nat) :
    (death_queue_insert dq i).keep_alive_timeout = dq.keep_alive_timeout := by
  simp only [death_queue_insert, death_queue_set_next, updateConn]
  split_ifs <;> rfl

@[simp]
theorem remove_time (dq : DeathQueue) (i : Nat) :
    (death_queue_remove dq i).time = dq.time := by
  simp only [death_queue_remove, death_queue_set_prev, death_queue_set_next,
    updateConn]
  split_ifs <;> rfl

@[simp]
theorem remove_kat (dq : DeathQueue) (i : Nat) :
    (death_queue_remove dq i).keep_alive_timeout = dq.keep_alive_timeout := by
  simp only [death_queue_remove, death_queue_set_prev, death_queue_set_next,
    updateConn]
  split_ifs <;> rfl

theorem represents_empty_iff (dq : DeathQueue) (xs : List Nat)
    (h : represents dq xs = true) : death_queue_empty dq = xs.isEmpty := by
  obtain ⟨hchain, -, -⟩ := (represents_iff dq xs).1 h
  rcases xs with - | ⟨x, rest⟩
  · unfold represents at h
    simp [death_queue_empty, lastLinkFrom, death_queue_get_next] at h ⊢
    omega
  · rw [chainBody_cons, Bool.and_eq_true, Bool.and_eq_true] at hchain
    have := hchain.1.1
    rw [beq_iff_eq, death_queue_get_next_neg dq (by omega)] at this
    simp [death_queue_empty, this]

theorem represents_head_next (dq : DeathQueue) (x : Nat) (rest : List Nat)
    (h : represents dq (x :: rest) = true) : dq.head.next = (x : Int) := by
  obtain ⟨hchain, -, -⟩ := (represents_iff dq _).1 h
  rw [chainBody_cons, Bool.and_eq_true, Bool.and_eq_true] at hchain
  have := hchain.1.1
  rwa [beq_iff_eq, death_queue_get_next_neg dq (by omega)] at this

/-- `death_queue_move_to_last` refines erase-then-append on the abstract
queue list. -/
theorem represents_move (dq : DeathQueue) (xs : List Nat) (i : Nat)
    (hrep : represents dq xs = true) (hnd : xs.Nodup) (hi : i ∈ xs) :
    represents (death_queue_move_to_last dq i) (xs.erase i ++ [i]) = true := by
  obtain ⟨as, bs, hsplit⟩ := List.append_of_mem hi
  subst hsplit
  have hndsplit := List.nodup_append.mp hnd
  have hdisj := hndsplit.2.2
  have hias : i ∉ as := fun h => hdisj h (List.mem_cons_self _ _)
  have hibs : i ∉ bs := (List.nodup_cons.mp hndsplit.2.1).1
  have hera : (as ++ i :: bs).erase i = as ++ bs := by
    rw [List.erase_append_right _ hias, List.erase_cons_head]
  have hnd' : (as ++ bs).Nodup := by
    refine List.Nodup.sublist ?_ hnd
    exact List.Sublist.append_left (List.sublist_cons_of_sublist i (List.Sublist.refl bs)) as
  have hiab : i ∉ as ++ bs := by
    simp only [List.mem_append]
    rintro (h | h)
    · exact hias h
    · exact hibs h
  unfold death_queue_move_to_last
  have h1 : represents (updateConn dq i fun c =>
      { c with time_to_die :=
          (dq.time + (if c.flags.keepAlive || c.flags.shouldResume
                      then dq.keep_alive_timeout else 0)) % uintMod })
      (as ++ i :: bs) = true := by
    rw [represents_congr_links _ dq _ (by simp) (by simp) (by
      intro j
      by_cases hji : j = i <;> simp [hji])]
    exact hrep
  have h2 := represents_remove _ as bs i h1 hnd
  have h3 := represents_insert _ (as ++ bs) i h2 hnd' hiab
  rw [hera]
  exact h3

theorem move_conns_self_ttd (dq : DeathQueue) (i : Nat) :
    ((death_queue_move_to_last dq i).conns i).time_to_die =
      (dq.time + (if (dq.conns i).flags.keepAlive ||
                     (dq.conns i).flags.shouldResume
                  then dq.keep_alive_timeout else 0)) % uintMod := by
  unfold death_queue_move_to_last
  have ha := (insert_conns_nonlink (death_queue_remove
    (updateConn dq i fun c =>
      { c with time_to_die :=
          (dq.time + (if c.flags.keepAlive || c.flags.shouldResume
                      then dq.keep_alive_timeout else 0)) % uintMod }) i) i i).2.1
  have hb := (remove_conns_nonlink (updateConn dq i fun c =>
      { c with time_to_die :=
          (dq.time + (if c.flags.keepAlive || c.flags.shouldResume
                      then dq.keep_alive_timeout else 0)) % uintMod }) i i).2.1
  rw [ha, hb]
  simp

theorem move_conns_other (dq : DeathQueue) (i j : Nat) (hj : j ≠ i) :
    ((death_queue_move_to_last dq i).conns j).flags = (dq.conns j).flags ∧
    ((death_queue_move_to_last dq i).conns j).time_to_die =
      (dq.conns j).time_to_die ∧
    ((death_queue_move_to_last dq i).conns j).coro = (dq.conns j).coro := by
  unfold death_queue_move_to_last
  have ha := insert_conns_nonlink (death_queue_remove
    (updateConn dq i fun c =>
      { c with time_to_die :=
          (dq.time + (if c.flags.keepAlive || c.flags.shouldResume
                      then dq.keep_alive_timeout else 0)) % uintMod }) i) i j
  have hb := remove_conns_nonlink (updateConn dq i fun c =>
      { c with time_to_die :=
          (dq.time + (if c.flags.keepAlive || c.flags.shouldResume
                      then dq.keep_alive_timeout else 0)) % uintMod }) i j
  refine ⟨?_, ?_, ?_⟩
  · rw [ha.1, hb.1, updateConn_conns_ne _ _ _ _ hj]
  · rw [ha.2.1, hb.2.1, updateConn_conns_ne _ _ _ _ hj]
  · rw [ha.2.2, hb.2.2, updateConn_conns_ne _ _ _ _ hj]

@[simp]
theorem move_time (dq : DeathQueue) (i : Nat) :
    (death_queue_move_to_last dq i).time = dq.time := by
  unfold death_queue_move_to_last
  simp

@[simp]
theorem move_kat (dq : DeathQueue) (i : Nat) :
    (death_queue_move_to_last dq i).keep_alive_timeout =
      dq.keep_alive_timeout := by
  unfold death_queue_move_to_last
  simp

theorem dropWhile_congr_mem {α : Type} (p q : α → Bool) :
    ∀ l : List α, (∀ a ∈ l, p a = q a) → l.dropWhile p = l.dropWhile q
  | [], _ => rfl
  | a :: l, h => by
    simp only [List.dropWhile_cons]
    rw [h a (List.mem_cons_self a l)]
    by_cases hq : q a = true
    · simp only [hq, if_true]
      exact dropWhile_congr_mem p q l fun b hb => h b (List.mem_cons_of_mem a hb)
    · simp only [Bool.not_eq_true] at hq
      simp [hq]

theorem takeWhile_congr_mem {α : Type} (p q : α → Bool) :
    ∀ l : List α, (∀ a ∈ l, p a = q a) → l.takeWhile p = l.takeWhile q
  | [], _ => rfl
  | a :: l, h => by
    simp only [List.takeWhile_cons]
    rw [h a (List.mem_cons_self a l)]
    by_cases hq : q a = true
    · simp only [hq, if_true]
      rw [takeWhile_congr_mem p q l fun b hb => h b (List.mem_cons_of_mem a hb)]
    · simp only [Bool.not_eq_true] at hq
      simp [hq]

/-- Effect of `destroy_coro` on the head of a well-formed queue. -/
theorem destroy_head_spec (dq : DeathQueue) (x : Nat) (rest : List Nat)
    (hrep : represents dq (x :: rest) = true) (hnd : (x :: rest).Nodup) :
    represents (destroy_coro dq x) rest = true ∧
    (∀ j, j ≠ x →
      ((destroy_coro dq x).conns j).flags = (dq.conns j).flags ∧
      ((destroy_coro dq x).conns j).time_to_die = (dq.conns j).time_to_die ∧
      ((destroy_coro dq x).conns j).coro = (dq.conns j).coro) ∧
    ((destroy_coro dq x).conns x).coro = false ∧
    ((destroy_coro dq x).conns x).flags.isAlive = false ∧
    (∀ j, j ≠ x → j ∉ rest → (destroy_coro dq x).conns j = dq.conns j) ∧
    (destroy_coro dq x).time = dq.time ∧
    (destroy_coro dq x).keep_alive_timeout = dq.keep_alive_timeout := by
  have hconns_other : ∀ j, j ≠ x →
      (destroy_coro dq x).conns j = (death_queue_remove dq x).conns j := by
    intro j hj
    simp only [destroy_coro]
    split_ifs <;> simp [hj]
  have hlinks_self :
      ((destroy_coro dq x).conns x).prev = ((death_queue_remove dq x).conns x).prev ∧
      ((destroy_coro dq x).conns x).next = ((death_queue_remove dq x).conns x).next := by
    simp only [destroy_coro]
    split_ifs <;> simp
  have hhead : (destroy_coro dq x).head = (death_queue_remove dq x).head := by
    simp only [destroy_coro]
    split_ifs <;> simp
  have htime : (destroy_coro dq x).time = (death_queue_remove dq x).time := by
    simp only [destroy_coro]
    split_ifs <;> simp
  have hkat : (destroy_coro dq x).keep_alive_timeout =
      (death_queue_remove dq x).keep_alive_timeout := by
    simp only [destroy_coro]
    split_ifs <;> simp
  have hrem : represents (death_queue_remove dq x) rest = true := by
    have := represents_remove dq [] rest x (by simpa using hrep)
      (by simpa using hnd)
    simpa using this
  refine ⟨?_, ?_, ?_, ?_, ?_, ?_, ?_⟩
  · rw [represents_congr_links (destroy_coro dq x) (death_queue_remove dq x)
      rest (by rw [hhead]) (by rw [hhead]) ?_]
    · exact hrem
    · intro j
      by_cases hj : j = x
      · subst hj
        exact ⟨hlinks_self.1, hlinks_self.2⟩
      · rw [hconns_other j hj]
        exact ⟨rfl, rfl⟩
  · intro j hj
    rw [hconns_other j hj]
    exact remove_conns_nonlink dq x j
  · simp only [destroy_coro]
    split_ifs <;> simp_all
  · simp only [destroy_coro]
    split_ifs <;> simp_all
  · intro j hj hjr
    rw [hconns_other j hj]
    -- `j` is neither `x` nor one of its neighbours, so `remove` leaves it alone
    obtain ⟨hchain, hend, hhp⟩ := (represents_iff dq (x :: rest)).1 hrep
    rw [chainBody_cons, Bool.and_eq_true, Bool.and_eq_true] at hchain
    obtain ⟨⟨-, hxprev⟩, hcrest⟩ := hchain
    rw [beq_iff_eq] at hxprev
    rcases hr : rest with - | ⟨r, rest'⟩
    · subst hr
      have hxnext : (dq.conns x).next = -1 := by
        have hL : lastLinkFrom (-1) [x] = (x : Int) := by simp [lastLinkFrom]
        rw [hL] at hend
        simpa using hend
      rw [remove_eq_of_neg_neg dq x (by rw [hxprev]; omega) (by omega)]
      simp [hj]
    · subst hr
      rw [chainBody_cons, Bool.and_eq_true, Bool.and_eq_true] at hcrest
      have hxnext : (dq.conns x).next = (r : Int) := by
        have := hcrest.1.1
        rw [beq_iff_eq] at this
        simpa using this
      have hrx : r ≠ x := fun hc =>
        (List.nodup_cons.mp hnd).1 (hc ▸ List.mem_cons_self r rest')
      have hjr' : j ≠ r := fun hc => hjr (hc ▸ List.mem_cons_self r rest')
      rw [remove_eq_of_neg_nonneg dq x (by rw [hxprev]; omega)
        (by rw [hxnext]; omega) (by simp [hxnext, hrx])]
      simp [hj, hjr', hxnext]
  · rw [htime, remove_time]
  · rw [hkat, remove_kat]

/-- Refinement of the reaping loop of `death_queue_kill_waiting`: with
enough fuel it drops exactly the prefix of expired connections, resets the
epoch exactly when the whole queue drains, clears the destroyed slots, and
leaves everything else untouched. -/
theorem killLoop_spec :
    ∀ (xs : List Nat) (dq : DeathQueue) (fuel : Nat),
    represents dq xs = true → xs.Nodup → xs.length < fuel →
    represents (killLoop dq fuel)
      (xs.dropWhile fun j => decide ((dq.conns j).time_to_die ≤ dq.time))
      = true ∧
    (killLoop dq fuel).time =
      (if (xs.dropWhile fun j => decide ((dq.conns j).time_to_die ≤ dq.time))
          = [] then 0 else dq.time) ∧
    (killLoop dq fuel).keep_alive_timeout = dq.keep_alive_timeout ∧
    (∀ j ∈ xs.dropWhile fun j => decide ((dq.conns j).time_to_die ≤ dq.time),
      ((killLoop dq fuel).conns j).flags = (dq.conns j).flags ∧
      ((killLoop dq fuel).conns j).time_to_die = (dq.conns j).time_to_die ∧
      ((killLoop dq fuel).conns j).coro = (dq.conns j).coro) ∧
    (∀ j ∈ xs.takeWhile fun j => decide ((dq.conns j).time_to_die ≤ dq.time),
      ((killLoop dq fuel).conns j).coro = false ∧
      ((killLoop dq fuel).conns j).flags.isAlive = false) ∧
    (∀ j, j ∉ xs → (killLoop dq fuel).conns j = dq.conns j)
  | [], dq, fuel, hrep, hnd, hfuel => by
    obtain ⟨fuel, rfl⟩ : ∃ f, fuel = f + 1 := ⟨fuel - 1, by omega⟩
    have hempty : death_queue_empty dq = true := by
      rw [represents_empty_iff dq [] hrep]
      rfl
    simp only [killLoop, hempty, if_true]
    refine ⟨?_, by simp, by simp, by simp, by simp, by simp⟩
    rw [List.dropWhile_nil]
    exact represents_of_links_eq _ dq [] (by simp) (by simp)
      (fun j => ⟨rfl, rfl⟩) hrep
  | x :: rest, dq, fuel, hrep, hnd, hfuel => by
    obtain ⟨fuel, rfl⟩ : ∃ f, fuel = f + 1 := ⟨fuel - 1, by omega⟩
    have hempty : death_queue_empty dq = false := by
      rw [represents_empty_iff dq (x :: rest) hrep]
      rfl
    have hhd : dq.head.next = (x : Int) := represents_head_next dq x rest hrep
    have hhdtn : dq.head.next.toNat = x := by rw [hhd]; simp
    simp only [killLoop, hempty, Bool.false_eq_true, if_false, hhdtn]
    by_cases hexp : dq.time < (dq.conns x).time_to_die
    · rw [if_pos hexp]
      have hpred : (decide ((dq.conns x).time_to_die ≤ dq.time)) = false := by
        simp; omega
      rw [List.dropWhile_cons, List.takeWhile_cons, hpred]
      simp only [Bool.false_eq_true, if_false]
      exact ⟨hrep, by simp, by simp, by simp, by simp, by simp⟩
    · rw [if_neg hexp]
      have hxrest : x ∉ rest := (List.nodup_cons.mp hnd).1
      obtain ⟨hd1, hd2, hd3, hd4, hd5, hd6, hd7⟩ :=
        destroy_head_spec dq x rest hrep hnd
      have hndrest : rest.Nodup := (List.nodup_cons.mp hnd).2
      obtain ⟨ih1, ih2, ih3, ih4, ih5, ih6⟩ :=
        killLoop_spec rest (destroy_coro dq x) fuel hd1 hndrest
          (by simpa using Nat.lt_of_succ_lt_succ hfuel)
      have hpredeq : ∀ j ∈ rest,
          (decide (((destroy_coro dq x).conns j).time_to_die ≤
            (destroy_coro dq x).time)) =
          (decide ((dq.conns j).time_to_die ≤ dq.time)) := by
        intro j hj
        have hjx : j ≠ x := fun hc => hxrest (hc ▸ hj)
        rw [(hd2 j hjx).2.1, hd6]
      have hdropeq : (rest.dropWhile fun j =>
          decide (((destroy_coro dq x).conns j).time_to_die ≤
            (destroy_coro dq x).time)) =
          (rest.dropWhile fun j => decide ((dq.conns j).time_to_die ≤ dq.time)) :=
        dropWhile_congr_mem _ _ rest hpredeq
      have htakeeq : (rest.takeWhile fun j =>
          decide (((destroy_coro dq x).conns j).time_to_die ≤
            (destroy_coro dq x).time)) =
          (rest.takeWhile fun j => decide ((dq.conns j).time_to_die ≤ dq.time)) :=
        takeWhile_congr_mem _ _ rest hpredeq
      have hpredx : (decide ((dq.conns x).time_to_die ≤ dq.time)) = true := by
        simp; omega
      rw [List.dropWhile_cons, List.takeWhile_cons, hpredx]
      simp only [if_true]
      have hdropsub : ∀ j, j ∈ (rest.dropWhile fun j =>
          decide ((dq.conns j).time_to_die ≤ dq.time)) → j ∈ rest :=
        fun j hj => List.dropWhile_sublist _ |>.mem hj
      have htakesub : ∀ j, j ∈ (rest.takeWhile fun j =>
          decide ((dq.conns j).time_to_die ≤ dq.time)) → j ∈ rest :=
        fun j hj => List.takeWhile_sublist _ |>.mem hj
      refine ⟨?_, ?_, ?_, ?_, ?_, ?_⟩
      · rw [← hdropeq]; exact ih1
      · rw [hdropeq, hd6] at ih2; exact ih2
      · rw [ih3, hd7]
      · intro j hj
        have hjrest : j ∈ rest := hdropsub j hj
        have hjx : j ≠ x := fun hc => hxrest (hc ▸ hjrest)
        rw [← hdropeq] at hj
        obtain ⟨f1, f2, f3⟩ := ih4 j hj
        obtain ⟨g1, g2, g3⟩ := hd2 j hjx
        exact ⟨f1.trans g1, f2.trans g2, f3.trans g3⟩
      · intro j hj
        rcases List.mem_cons.mp hj with hjx | hjtake
        · subst hjx
          have := ih6 j hxrest
          rw [this]
          exact ⟨hd3, hd4⟩
        · rw [← htakeeq] at hjtake
          exact ih5 j hjtake
      · intro j hj
        have hjx : j ≠ x := fun hc => hj (hc ▸ List.mem_cons_self x rest)
        have hjrest : j ∉ rest := fun hc => hj (List.mem_cons_of_mem x hc)
        rw [ih6 j hjrest, hd5 j hjx hjrest]

/-- Full refinement of `death_queue_kill_waiting`: the tick is incremented
first (modulo `2^32`), then exactly the expired prefix is destroyed, and
the epoch is reset to `0` exactly when the queue drains. -/
theorem kill_waiting_spec (dq : DeathQueue) (xs : List Nat) (fuel : Nat)
    (hrep : represents dq xs = true) (hnd : xs.Nodup)
    (hfuel : xs.length < fuel) :
    represents (death_queue_kill_waiting dq fuel)
      (xs.dropWhile fun j =>
        decide ((dq.conns j).time_to_die ≤ (dq.time + 1) % uintMod)) = true ∧
    (death_queue_kill_waiting dq fuel).time =
      (if (xs.dropWhile fun j =>
            decide ((dq.conns j).time_to_die ≤ (dq.time + 1) % uintMod)) = []
       then 0 else (dq.time + 1) % uintMod) ∧
    (death_queue_kill_waiting dq fuel).keep_alive_timeout =
      dq.keep_alive_timeout ∧
    (∀ j ∈ xs.dropWhile fun j =>
        decide ((dq.conns j).time_to_die ≤ (dq.time + 1) % uintMod),
      ((death_queue_kill_waiting dq fuel).conns j).flags = (dq.conns j).flags ∧
      ((death_queue_kill_waiting dq fuel).conns j).time_to_die =
        (dq.conns j).time_to_die ∧
      ((death_queue_kill_waiting dq fuel).conns j).coro = (dq.conns j).coro) ∧
    (∀ j ∈ xs.takeWhile fun j =>
        decide ((dq.conns j).time_to_die ≤ (dq.time + 1) % uintMod),
      ((death_queue_kill_waiting dq fuel).conns j).coro = false ∧
      ((death_queue_kill_waiting dq fuel).conns j).flags.isAlive = false) ∧
    (∀ j, j ∉ xs → (death_queue_kill_waiting dq fuel).conns j = dq.conns j) := by
  have hrep' : represents { dq with time := (dq.time + 1) % uintMod } xs = true :=
    represents_of_links_eq _ dq xs (by simp) (by simp) (fun j => ⟨rfl, rfl⟩) hrep
  have := killLoop_spec xs { dq with time := (dq.time + 1) % uintMod } fuel
    hrep' hnd hfuel
  simpa [death_queue_kill_waiting] using this

/-- On `coro_new` failure `spawn_coro` leaves the state untouched (the only
write re-stores the already-null `conn->coro`). -/
theorem spawn_fail_eq (dq : DeathQueue) (i : Nat)
    (hcoro : (dq.conns i).coro = false) : spawn_coro dq i false = dq := by
  simp only [spawn_coro, if_pos]
  ext j
  all_goals simp [updateConn]
  all_goals split_ifs with hj
  all_goals simp_all

theorem spawn_success_spec (dq : DeathQueue) (xs : List Nat) (i : Nat)
    (hrep : represents dq xs = true) (hnd : xs.Nodup) (hi : i ∉ xs) :
    represents (spawn_coro dq i true) (xs ++ [i]) = true ∧
    ((spawn_coro dq i true).conns i).time_to_die =
      (dq.time + dq.keep_alive_timeout) % uintMod ∧
    ((spawn_coro dq i true).conns i).flags =
      { keepAlive := false, isAlive := true, shouldResume := true,
        writeEvents := false, mustRead := false } ∧
    ((spawn_coro dq i true).conns i).coro = true ∧
    (∀ j, j ≠ i →
      ((spawn_coro dq i true).conns j).flags = (dq.conns j).flags ∧
      ((spawn_coro dq i true).conns j).time_to_die =
        (dq.conns j).time_to_die ∧
      ((spawn_coro dq i true).conns j).coro = (dq.conns j).coro) ∧
    (spawn_coro dq i true).time = dq.time ∧
    (spawn_coro dq i true).keep_alive_timeout = dq.keep_alive_timeout := by
  have hunfold : spawn_coro dq i true =
      death_queue_insert (updateConn (updateConn (updateConn dq i
        fun c => { c with coro := true }) i
        fun c => { c with flags := { keepAlive := false, isAlive := true,
                                     shouldResume := true, writeEvents := false,
                                     mustRead := false } }) i
        fun c => { c with time_to_die :=
          (dq.time + dq.keep_alive_timeout) % uintMod }) i := by
    simp only [spawn_coro, Bool.true_eq_false, if_false, updateConn]
  rw [hunfold]
  set dq3 := updateConn (updateConn (updateConn dq i
    fun c => { c with coro := true }) i
    fun c => { c with flags := { keepAlive := false, isAlive := true,
                                 shouldResume := true, writeEvents := false,
                                 mustRead := false } }) i
    fun c => { c with time_to_die :=
      (dq.time + dq.keep_alive_timeout) % uintMod } with hdq3
  have hnl := insert_conns_nonlink dq3 i
  refine ⟨?_, ?_, ?_, ?_, ?_, ?_, ?_⟩
  · refine represents_insert dq3 xs i ?_ hnd hi
    exact represents_of_links_eq dq3 dq xs (by simp [hdq3]) (by simp [hdq3])
      (fun j => by by_cases hj : j = i <;> simp [hdq3, hj]) hrep
  · rw [(hnl i).2.1]
    simp [hdq3]
  · rw [(hnl i).1]
    simp [hdq3]
  · rw [(hnl i).2.2]
    simp [hdq3]
  · intro j hj
    obtain ⟨a, b, c⟩ := insert_conns_nonlink dq3 i j
    exact ⟨by rw [a]; simp [hdq3, hj], by rw [b]; simp [hdq3, hj],
      by rw [c]; simp [hdq3, hj]⟩
  · simp [hdq3]
  · simp [hdq3]

/-- Inductive invariant for `DqReach`: the link structure matches the
abstract list, deadlines are bounded by `time + keep_alive_timeout`, the
tick arithmetic never wraps, and deadlines are non-decreasing from head to
tail. -/
theorem dqReach_inv (dq : DeathQueue) (xs : List Nat) (h : DqReach dq xs) :
    represents dq xs = true ∧ xs.Nodup ∧
    (∀ j ∈ xs, (dq.conns j).time_to_die ≤ dq.time + dq.keep_alive_timeout) ∧
    dq.time + dq.keep_alive_timeout < uintMod ∧
    List.Pairwise (fun a b =>
      (dq.conns a).time_to_die ≤ (dq.conns b).time_to_die) xs := by
  induction h with
  | init conns0 K hK =>
    refine ⟨?_, List.nodup_nil, by simp, ?_, List.Pairwise.nil⟩
    · simp [represents, death_queue_init, death_queue_get_next, lastLinkFrom]
    · simp only [death_queue_init, uintMod]
      omega
  | spawn dq xs i hre hni ih =>
    obtain ⟨hrep, hnd, hbnd, hlt, hpw⟩ := ih
    obtain ⟨s1, s2, s3, s4, s5, s6, s7⟩ := spawn_success_spec dq xs i hrep hnd hni
    have hmod : (dq.time + dq.keep_alive_timeout) % uintMod =
        dq.time + dq.keep_alive_timeout := Nat.mod_eq_of_lt hlt
    refine ⟨s1, ?_, ?_, ?_, ?_⟩
    · simp [List.nodup_append, hnd, hni]
    · intro j hj
      rcases List.mem_append.mp hj with hj | hj
      · have hji : j ≠ i := fun hc => hni (hc ▸ hj)
        rw [(s5 j hji).2.1, s6, s7]
        exact hbnd j hj
      · have hji : j = i := by simpa using hj
        rw [hji, s2, s6, s7, hmod]
    · rw [s6, s7]
      exact hlt
    · rw [List.pairwise_append]
      refine ⟨?_, List.pairwise_singleton _ _, ?_⟩
      · refine List.Pairwise.imp_of_mem ?_ hpw
        intro a b ha hb hab
        have hai : a ≠ i := fun hc => hni (hc ▸ ha)
        have hbi : b ≠ i := fun hc => hni (hc ▸ hb)
        rw [(s5 a hai).2.1, (s5 b hbi).2.1]
        exact hab
      · intro a ha b hb
        have hbi : b = i := by simpa using hb
        have hai : a ≠ i := fun hc => hni (hc ▸ ha)
        rw [hbi, (s5 a hai).2.1, s2, hmod]
        exact hbnd a ha
  | move dq xs i hre hmem hflag ih =>
    obtain ⟨hrep, hnd, hbnd, hlt, hpw⟩ := ih
    have hrep' := represents_move dq xs i hrep hnd hmem
    have hmod : (dq.time + dq.keep_alive_timeout) % uintMod =
        dq.time + dq.keep_alive_timeout := Nat.mod_eq_of_lt hlt
    have httdi : ((death_queue_move_to_last dq i).conns i).time_to_die =
        dq.time + dq.keep_alive_timeout := by
      rw [move_conns_self_ttd, hflag, if_pos rfl, hmod]
    have hie : i ∉ xs.erase i := hnd.not_mem_erase
    refine ⟨hrep', ?_, ?_, ?_, ?_⟩
    · simp [List.nodup_append, hnd.erase i, hie]
    · intro j hj
      rw [move_time, move_kat]
      rcases List.mem_append.mp hj with hj | hj
      · have hji : j ≠ i := fun hc => hie (hc ▸ hj)
        rw [(move_conns_other dq i j hji).2.1]
        exact hbnd j ((xs.erase_sublist i).mem hj)
      · have hji : j = i := by simpa using hj
        rw [hji, httdi]
    · rw [move_time, move_kat]
      exact hlt
    · rw [List.pairwise_append]
      refine ⟨?_, List.pairwise_singleton _ _, ?_⟩
      · refine List.Pairwise.imp_of_mem ?_ (hpw.sublist (xs.erase_sublist i))
        intro a b ha hb hab
        have hai : a ≠ i := fun hc => hie (hc ▸ ha)
        have hbi : b ≠ i := fun hc => hie (hc ▸ hb)
        rw [(move_conns_other dq i a hai).2.1, (move_conns_other dq i b hbi).2.1]
        exact hab
      · intro a ha b hb
        have hbi : b = i := by simpa using hb
        have hai : a ≠ i := fun hc => hie (hc ▸ ha)
        rw [hbi, (move_conns_other dq i a hai).2.1, httdi]
        exact hbnd a ((xs.erase_sublist i).mem ha)
  | kill dq xs hre hguard ih =>
    obtain ⟨hrep, hnd, hbnd, hlt, hpw⟩ := ih
    obtain ⟨k1, k2, k3, k4, k5, k6⟩ :=
      kill_waiting_spec dq xs (xs.length + 1) hrep hnd (by omega)
    have hmod : (dq.time + 1) % uintMod = dq.time + 1 :=
      Nat.mod_eq_of_lt (by omega)
    set ys := xs.dropWhile fun j =>
      decide ((dq.conns j).time_to_die ≤ (dq.time + 1) % uintMod) with hys
    have hsub : List.Sublist ys xs := List.dropWhile_sublist _
    refine ⟨k1, hnd.sublist hsub, ?_, ?_, ?_⟩
    · intro j hj
      rw [(k4 j hj).2.1, k2, k3]
      have := hbnd j (hsub.mem hj)
      by_cases hempty : ys = []
      · rw [hempty] at hj
        simp at hj
      · rw [if_neg hempty, hmod]
        omega
    · rw [k2, k3]
      split_ifs
      · omega
      · rw [hmod]
        omega
    · refine List.Pairwise.imp_of_mem ?_ (hpw.sublist hsub)
      intro a b ha hb hab
      rw [(k4 a ha).2.1, (k4 b hb).2.1]
      exact hab

@[simp]
theorem updateWConn_epoll (w : Worker) (i : Nat)
    (f : LwanConnection → LwanConnection) :
    (updateWConn w i f).epoll = w.epoll := rfl

@[simp]
theorem updateWConn_conns_self (w : Worker) (i : Nat)
    (f : LwanConnection → LwanConnection) :
    ((updateWConn w i f).dq.conns i) = f (w.dq.conns i) := by
  simp [updateWConn]

@[simp]
theorem epoll_ctl_mod_dq (w : Worker) (fd : Nat) (e : EpollEntry) :
    (epoll_ctl_mod w fd e).dq = w.dq := by
  simp only [epoll_ctl_mod]
  split_ifs <;> rfl

theorem epoll_ctl_mod_self (w : Worker) (fd : Nat) (e : EpollEntry)
    (h : (w.epoll fd).isSome = true) :
    (epoll_ctl_mod w fd e).epoll fd = some e := by
  simp [epoll_ctl_mod, h]

/-- Case analysis of `resume_coro_if_needed` for a gated, registered
connection whose coroutine yields a non-abort disposition. -/
theorem resume_nonabort_spec (w : Worker) (i : Nat) (o : CoroOutcome)
    (e : EpollEntry) (hsr : (w.dq.conns i).flags.shouldResume = true)
    (hy : 0 ≤ o.yieldResult) (hreg : w.epoll i = some e) :
    (o.mustRead = true →
      (resume_coro_if_needed w i o).epoll i =
        some { events := events_by_write_flag true, dataPtr := some i } ∧
      ((resume_coro_if_needed w i o).dq.conns i).flags.writeEvents =
        !(w.dq.conns i).flags.writeEvents ∧
      ((resume_coro_if_needed w i o).dq.conns i).flags.shouldResume = true) ∧
    (o.mustRead = false →
      (o.yieldResult == 0) = (w.dq.conns i).flags.writeEvents →
      (resume_coro_if_needed w i o).epoll = w.epoll ∧
      ((resume_coro_if_needed w i o).dq.conns i).flags.writeEvents =
        (w.dq.conns i).flags.writeEvents ∧
      ((resume_coro_if_needed w i o).dq.conns i).flags.shouldResume =
        (o.yieldResult == 0)) ∧
    (o.mustRead = false →
      (o.yieldResult == 0) = !(w.dq.conns i).flags.writeEvents →
      (resume_coro_if_needed w i o).epoll i =
        some { events := events_by_write_flag (w.dq.conns i).flags.writeEvents,
               dataPtr := some i } ∧
      ((resume_coro_if_needed w i o).dq.conns i).flags.writeEvents =
        !(w.dq.conns i).flags.writeEvents ∧
      ((resume_coro_if_needed w i o).dq.conns i).flags.shouldResume =
        (o.yieldResult == 0)) := by
  have hy' : ¬ (o.yieldResult < 0) := by omega
  refine ⟨?_, ?_, ?_⟩
  · intro hmr
    simp [resume_coro_if_needed, hsr, hy', hmr, epoll_ctl_mod_self,
      updateWConn, hreg]
  · intro hmr heq
    simp [resume_coro_if_needed, hsr, hy', hmr, updateWConn, epoll_ctl_mod,
      hreg, ← heq]
  · intro hmr hne
    have hne' : ¬ ((o.yieldResult == 0) = (w.dq.conns i).flags.writeEvents) := by
      rw [hne]
      cases h : (w.dq.conns i).flags.writeEvents <;> simp
    simp [resume_coro_if_needed, hsr, hy', hmr, updateWConn, epoll_ctl_mod,
      hreg, hne']

theorem move_conns_self_fields (dq : DeathQueue) (i : Nat) :
    ((death_queue_move_to_last dq i).conns i).flags = (dq.conns i).flags ∧
    ((death_queue_move_to_last dq i).conns i).coro = (dq.conns i).coro := by
  unfold death_queue_move_to_last
  have ha := insert_conns_nonlink (death_queue_remove
    (updateConn dq i fun c =>
      { c with time_to_die :=
          (dq.time + (if c.flags.keepAlive || c.flags.shouldResume
                      then dq.keep_alive_timeout else 0)) % uintMod }) i) i i
  have hb := remove_conns_nonlink (updateConn dq i fun c =>
      { c with time_to_die :=
          (dq.time + (if c.flags.keepAlive || c.flags.shouldResume
                      then dq.keep_alive_timeout else 0)) % uintMod }) i i
  exact ⟨by rw [ha.1, hb.1]; simp, by rw [ha.2.2, hb.2.2]; simp⟩

/-- `insert` followed by `remove` of an unlinked node restores every link of
the queue; the node itself ends defensively reset. -/
theorem insert_remove_roundtrip (dq : DeathQueue) (xs : List Nat) (i : Nat)
    (hrep : represents dq xs = true) (hnd : xs.Nodup) (hi : i ∉ xs) :
    death_queue_remove (death_queue_insert dq i) i =
      { dq with conns := fun j => if j = i then
          { dq.conns j with prev := -1, next := -1 } else dq.conns j } := by
  obtain ⟨hchain, hend, hhp⟩ := (represents_iff dq xs).1 hrep
  by_cases hne : xs = []
  · subst hne
    simp only [lastLinkFrom_nil] at hhp hend
    rw [death_queue_get_next_neg dq (by omega)] at hend
    rw [insert_eq_of_neg dq i (by rw [hhp]; decide)]
    rw [remove_eq_of_neg_neg _ i (by simp [hhp]) (by simp)]
    ext j
    all_goals simp [hhp, hend]
    all_goals split_ifs <;> simp
  · have hlast := lastLinkFrom_of_ne_nil (-1) xs hne
    set lst := xs.getLast hne with hlstdef
    have hlmem : lst ∈ xs := List.getLast_mem hne
    have hli : lst ≠ i := fun hc => hi (hc ▸ hlmem)
    have hp0 : 0 ≤ dq.head.prev := by rw [hhp, hlast]; omega
    have hptn : dq.head.prev.toNat = lst := by rw [hhp, hlast]; simp
    have hpti : dq.head.prev.toNat ≠ i := by rw [hptn]; exact hli
    have htail : (dq.conns lst).next = -1 := by
      rw [hlast, death_queue_get_next_coe] at hend
      exact hend
    rw [insert_eq_of_nonneg dq i hp0 hpti]
    set dq' : DeathQueue :=
      { dq with
        conns := fun j =>
          if j = i then { dq.conns j with prev := dq.head.prev, next := -1 }
          else if j = dq.head.prev.toNat then { dq.conns j with next := (i : Int) }
          else dq.conns j
        head := { dq.head with prev := (i : Int) } } with hdq'
    have hci : dq'.conns i = { dq.conns i with prev := dq.head.prev, next := -1 } := by
      simp [hdq']
    rw [remove_eq_of_nonneg_neg dq' i (by rw [hci]; exact hp0)
      (by rw [hci]; simp) (by rw [hci]; exact hpti)]
    ext j
    all_goals simp [hdq', hhp, hlast, hptn, hpti, hli]
    all_goals split_ifs <;> simp_all [htail]

theorem updateConn_id (dq : DeathQueue) (i : Nat)
    (f : LwanConnection → LwanConnection) (h : f (dq.conns i) = dq.conns i) :
    updateConn dq i f = dq := by
  have hfun : (fun j => if j = i then f (dq.conns j) else dq.conns j) =
      dq.conns := by
    funext j
    by_cases hj : j = i
    · subst hj
      simpa using h
    · simp [hj]
  simp [updateConn, hfun]

/-- Re-seating the tail twice is the same as re-seating it once. -/
theorem move_idempotent (dq : DeathQueue) (xs : List Nat) (k : Nat)
    (hrep : represents dq xs = true) (hnd : xs.Nodup) (hk : k ∈ xs) :
    death_queue_move_to_last (death_queue_move_to_last dq k) k =
      death_queue_move_to_last dq k := by
  set s1 := death_queue_move_to_last dq k with hs1
  have hrep1 := represents_move dq xs k hrep hnd hk
  rw [← hs1] at hrep1
  set ys := xs.erase k with hys
  have hkys : k ∉ ys := hnd.not_mem_erase
  obtain ⟨hchain1, hend1, hhp1⟩ := (represents_iff s1 (ys ++ [k])).1 hrep1
  rw [lastLinkFrom_snoc] at hend1 hhp1
  rw [death_queue_get_next_coe] at hend1
  rw [chainBody_snoc, Bool.and_eq_true, Bool.and_eq_true] at hchain1
  obtain ⟨⟨hcys, hjun1⟩, hprev1⟩ := hchain1
  rw [beq_iff_eq] at hjun1 hprev1
  -- the second deadline assignment stores the value already present
  have hupd : (updateConn s1 k fun c =>
      { c with time_to_die :=
          (s1.time + (if c.flags.keepAlive || c.flags.shouldResume
                      then s1.keep_alive_timeout else 0)) % uintMod }) = s1 := by
    refine updateConn_id s1 k _ ?_
    have hfl := (move_conns_self_fields dq k).1
    have httd := move_conns_self_ttd dq k
    ext
    all_goals simp [hs1, httd, hfl]
  have hmove2 : death_queue_move_to_last s1 k =
      death_queue_insert (death_queue_remove s1 k) k := by
    unfold death_queue_move_to_last
    rw [hupd]
  rw [hmove2]
  by_cases hysnil : ys = []
  · -- `k` is the sole element: all links already point at the head
    rw [hysnil, lastLinkFrom_nil] at hjun1 hprev1
    have hhn1 : s1.head.next = (k : Int) := by
      rw [death_queue_get_next_neg s1 (by omega)] at hjun1
      exact hjun1
    have hpneg : (s1.conns k).prev < 0 := by rw [hprev1]; decide
    have hnneg : (s1.conns k).next < 0 := by rw [hend1]; decide
    rw [remove_eq_of_neg_neg s1 k hpneg hnneg]
    rw [insert_eq_of_neg _ k (by simpa using hpneg)]
    ext j
    all_goals simp [hhp1, hhn1, hprev1, hend1]
    all_goals split_ifs <;> simp_all [hprev1, hend1]
  · -- `k` has a real predecessor `lstY`
    have hlastY := lastLinkFrom_of_ne_nil (-1) ys hysnil
    set lstY := ys.getLast hysnil with hlstYdef
    have hlmem : lstY ∈ ys := List.getLast_mem hysnil
    have hlk : lstY ≠ k := fun hc => hkys (hc ▸ hlmem)
    have hprev1' : (s1.conns k).prev = (lstY : Int) := by rw [hprev1, hlastY]
    have hjun1' : (s1.conns lstY).next = (k : Int) := by
      rw [hlastY, death_queue_get_next_coe] at hjun1
      exact hjun1
    rw [remove_eq_of_nonneg_neg s1 k (by rw [hprev1']; omega)
      (by rw [hend1]; decide) (by rw [hprev1']; simp [hlk])]
    set R : DeathQueue :=
      { s1 with
        conns := fun j =>
          if j = k then { s1.conns j with prev := -1, next := -1 }
          else if j = (s1.conns k).prev.toNat then
            { s1.conns j with next := (s1.conns k).next }
          else s1.conns j
        head := { s1.head with prev := (s1.conns k).prev } } with hR
    have hRhp : R.head.prev = (lstY : Int) := by simp [hR, hprev1']
    have hRhp0 : 0 ≤ R.head.prev := by rw [hRhp]; omega
    have hRhptn : R.head.prev.toNat ≠ k := by rw [hRhp]; simp [hlk]
    rw [insert_eq_of_nonneg R k hRhp0 hRhptn]
    ext j
    all_goals simp [hR, hhp1, hprev1', hend1, hjun1', hlk, Ne.symm hlk]
    all_goals split_ifs <;> simp_all [hprev1', hend1, hjun1']

/-!
Claim theorems.  The concrete states used by counterexamples and witnesses
are built from the source operations themselves.
-/


/-- C1 (counterexample): a read-armed connection (`CONN_WRITE_EVENTS`
clear, `CONN_MUST_READ` clear) whose resume yields `CONN_CORO_MAY_RESUME`.
The claim's target arm is read, equal to the currently armed direction, so
the claim predicts the registration is left untouched; the code instead
reprograms the entry to write interest (`events_by_write_flag[0]`,
`EPOLLOUT` set, `EPOLLIN` clear). -/
theorem C1_counterexample :
    worker_armed.epoll 0 =
      some { events := events_by_write_flag true, dataPtr := some 0 } ∧
    (worker_armed.dq.conns 0).flags.writeEvents = false ∧
    (worker_armed.dq.conns 0).flags.mustRead = false ∧
    (events_by_write_flag true).epollin = true ∧
    (events_by_write_flag true).epollout = false ∧
    (resume_coro_if_needed worker_armed 0
      { yieldResult := 0, mustRead := false, keepAlive := false }).epoll 0 =
      some { events := events_by_write_flag false, dataPtr := some 0 } ∧
    (events_by_write_flag false).epollout = true ∧
    (events_by_write_flag false).epollin = false := by
  decide

/-- C1 (amended): on a non-abort resume of a gated, registered connection,
the reactor entry is reprogrammed iff `CONN_MUST_READ` is set or the
MAY_RESUME-ness of the yield differs from the recorded `CONN_WRITE_EVENTS`
flag.  When it is reprogrammed on the non-`MUST_READ` path the new mask is
`events_by_write_flag` of the recorded flag — the arm opposite the recorded
one, i.e. target arm = write exactly when the yield was `MAY_RESUME` — and
the flag is toggled; when `CONN_MUST_READ` is set the entry is always
reprogrammed to read interest (even if read is already armed) and the flag
is toggled; otherwise the registration is left untouched. -/
theorem C1_rearm_characterization (w : Worker) (i : Nat) (o : CoroOutcome)
    (e : EpollEntry) (hsr : (w.dq.conns i).flags.shouldResume = true)
    (hy : 0 ≤ o.yieldResult) (hreg : w.epoll i = some e) :
    (o.mustRead = true →
      (resume_coro_if_needed w i o).epoll i =
        some { events := events_by_write_flag true, dataPtr := some i } ∧
      ((resume_coro_if_needed w i o).dq.conns i).flags.writeEvents =
        !(w.dq.conns i).flags.writeEvents ∧
      ((resume_coro_if_needed w i o).dq.conns i).flags.shouldResume = true) ∧
    (o.mustRead = false →
      (o.yieldResult == 0) = (w.dq.conns i).flags.writeEvents →
      (resume_coro_if_needed w i o).epoll = w.epoll ∧
      ((resume_coro_if_needed w i o).dq.conns i).flags.writeEvents =
        (w.dq.conns i).flags.writeEvents ∧
      ((resume_coro_if_needed w i o).dq.conns i).flags.shouldResume =
        (o.yieldResult == 0)) ∧
    (o.mustRead = false →
      (o.yieldResult == 0) = !(w.dq.conns i).flags.writeEvents →
      (resume_coro_if_needed w i o).epoll i =
        some { events := events_by_write_flag (w.dq.conns i).flags.writeEvents,
               dataPtr := some i } ∧
      ((resume_coro_if_needed w i o).dq.conns i).flags.writeEvents =
        !(w.dq.conns i).flags.writeEvents ∧
      ((resume_coro_if_needed w i o).dq.conns i).flags.shouldResume =
        (o.yieldResult == 0)) :=
  resume_nonabort_spec w i o e hsr hy hreg

/-- C1 (witness): the amended characterization applied to the concrete
read-armed worker with a `MAY_RESUME` yield. -/
theorem C1_rearm_characterization_witness :
    ((worker_armed.dq.conns 0).flags.shouldResume = true ∧
      (0 : Int) ≤ (0 : Int) ∧
      worker_armed.epoll 0 =
        some { events := events_by_write_flag true, dataPtr := some 0 }) ∧
    ((({ yieldResult := 0, mustRead := false, keepAlive := false } :
        CoroOutcome).mustRead = true →
      (resume_coro_if_needed worker_armed 0
        { yieldResult := 0, mustRead := false, keepAlive := false }).epoll 0 =
        some { events := events_by_write_flag true, dataPtr := some 0 } ∧
      ((resume_coro_if_needed worker_armed 0
        { yieldResult := 0, mustRead := false, keepAlive := false }).dq.conns
          0).flags.writeEvents = !(worker_armed.dq.conns 0).flags.writeEvents ∧
      ((resume_coro_if_needed worker_armed 0
        { yieldResult := 0, mustRead := false, keepAlive := false }).dq.conns
          0).flags.shouldResume = true) ∧
    (({ yieldResult := 0, mustRead := false, keepAlive := false } :
        CoroOutcome).mustRead = false →
      (((0 : Int) == 0)) = (worker_armed.dq.conns 0).flags.writeEvents →
      (resume_coro_if_needed worker_armed 0
        { yieldResult := 0, mustRead := false, keepAlive := false }).epoll =
        worker_armed.epoll ∧
      ((resume_coro_if_needed worker_armed 0
        { yieldResult := 0, mustRead := false, keepAlive := false }).dq.conns
          0).flags.writeEvents = (worker_armed.dq.conns 0).flags.writeEvents ∧
      ((resume_coro_if_needed worker_armed 0
        { yieldResult := 0, mustRead := false, keepAlive := false }).dq.conns
          0).flags.shouldResume = ((0 : Int) == 0)) ∧
    (({ yieldResult := 0, mustRead := false, keepAlive := false } :
        CoroOutcome).mustRead = false →
      (((0 : Int) == 0)) = !(worker_armed.dq.conns 0).flags.writeEvents →
      (resume_coro_if_needed worker_armed 0
        { yieldResult := 0, mustRead := false, keepAlive := false }).epoll 0 =
        some ⟨events_by_write_flag (worker_armed.dq.conns 0).flags.writeEvents,
          some 0⟩ ∧
      ((resume_coro_if_needed worker_armed 0
        { yieldResult := 0, mustRead := false, keepAlive := false }).dq.conns
          0).flags.writeEvents = !(worker_armed.dq.conns 0).flags.writeEvents ∧
      ((resume_coro_if_needed worker_armed 0
        { yieldResult := 0, mustRead := false, keepAlive := false }).dq.conns
          0).flags.shouldResume = ((0 : Int) == 0))) :=
  ⟨⟨by decide, by decide, by decide⟩,
    C1_rearm_characterization worker_armed 0
      { yieldResult := 0, mustRead := false, keepAlive := false }
      { events := events_by_write_flag true, dataPtr := some 0 }
      (by decide) (by decide) (by decide)⟩

/-- C2: the worker loop violates invariant P1.  Starting from a fresh
worker, fd 0 is handed off (`accept_handed_off`: epoll ADD, `spawn_coro`,
initial resume yielding `MAY_RESUME`); the next event's resume yields
`CONN_CORO_ABORT`, so `resume_coro_if_needed` calls `destroy_coro` — yet
`thread_io_loop` then calls `death_queue_move_to_last` unconditionally,
re-inserting the destroyed slot: afterwards slot 0 is linked as the sole
element of the death queue while its coroutine is gone and `CONN_IS_ALIVE`
is clear.  The claim (and spec invariant P1) says a slot destroyed by an
aborting resume is no longer linked. -/
theorem C2_abort_relinks_destroyed_slot :
    represents (handle_conn_event
      (accept_handed_off worker_zero 0 true
        { yieldResult := 0, mustRead := false, keepAlive := false })
      0 false { yieldResult := -1, mustRead := false, keepAlive := false }).dq
      [0] = true ∧
    ((handle_conn_event
      (accept_handed_off worker_zero 0 true
        { yieldResult := 0, mustRead := false, keepAlive := false })
      0 false { yieldResult := -1, mustRead := false, keepAlive := false }).dq.conns
      0).coro = false ∧
    ((handle_conn_event
      (accept_handed_off worker_zero 0 true
        { yieldResult := 0, mustRead := false, keepAlive := false })
      0 false { yieldResult := -1, mustRead := false, keepAlive := false }).dq.conns
      0).flags.isAlive = false ∧
    death_queue_empty (handle_conn_event
      (accept_handed_off worker_zero 0 true
        { yieldResult := 0, mustRead := false, keepAlive := false })
      0 false { yieldResult := -1, mustRead := false, keepAlive := false }).dq
      = false := by
  decide

/-- C3: `accept_nudge` registers a handed-off descriptor with
`ep_event = { .events = events_by_write_flag[1] }` — edge-triggered read
interest, but the designated initializer leaves `.data.ptr` zeroed, so the
entry's user pointer is NULL (`none`), not the address of slot 5 as the
claim requires; an event for this fd would be dispatched to the wakeup
path. -/
theorem C3_registration_has_null_user_ptr :
    (accept_handed_off worker_zero 5 true
      { yieldResult := 1, mustRead := false, keepAlive := false }).epoll 5 =
      some { events := events_by_write_flag true, dataPtr := none } ∧
    (events_by_write_flag true).epollin = true ∧
    (events_by_write_flag true).epollet = true ∧
    ((accept_handed_off worker_zero 5 true
      { yieldResult := 1, mustRead := false, keepAlive := false }).dq.conns
      5).flags.isAlive = true := by
  decide

/-- C4 (counterexample): a read-armed connection with `CONN_WRITE_EVENTS`
clear (flag and kernel interest in sync) is resumed with `CONN_MUST_READ`
set.  The code reprograms the entry to read interest again but still
executes `conn->flags ^= CONN_WRITE_EVENTS`: afterwards the flag claims
write-armed while the registered mask has `EPOLLOUT` clear — P6 is
violated. -/
theorem C4_counterexample :
    (worker_armed.dq.conns 0).flags.writeEvents = false ∧
    worker_armed.epoll 0 =
      some { events := events_by_write_flag true, dataPtr := some 0 } ∧
    (events_by_write_flag true).epollout = false ∧
    ((resume_coro_if_needed worker_armed 0
      { yieldResult := 0, mustRead := true, keepAlive := false }).dq.conns
      0).flags.writeEvents = true ∧
    (resume_coro_if_needed worker_armed 0
      { yieldResult := 0, mustRead := true, keepAlive := false }).epoll 0 =
      some { events := events_by_write_flag true, dataPtr := some 0 } := by
  decide

/-- C4 (amended): `CONN_WRITE_EVENTS` is toggled exactly when the entry is
reprogrammed, and it mirrors the kernel-registered interest direction
across every non-`MUST_READ` resume (if the flag equals "`EPOLLOUT`
armed" before, it still does after); the `MUST_READ` path however always
arms read while toggling the flag, so after it the flag equals the
negation of its previous value and the equivalence survives only when the
connection was write-armed before. -/
theorem C4_flag_mirrors_arm (w : Worker) (i : Nat) (o : CoroOutcome)
    (e : EpollEntry) (hsr : (w.dq.conns i).flags.shouldResume = true)
    (hy : 0 ≤ o.yieldResult) (hreg : w.epoll i = some e)
    (hsync : e.events =
      events_by_write_flag (!(w.dq.conns i).flags.writeEvents)) :
    (o.mustRead = false →
      Option.map (fun en => en.events) ((resume_coro_if_needed w i o).epoll i) =
        some (events_by_write_flag
          (!((resume_coro_if_needed w i o).dq.conns i).flags.writeEvents))) ∧
    (o.mustRead = true →
      (resume_coro_if_needed w i o).epoll i =
        some { events := events_by_write_flag true, dataPtr := some i } ∧
      ((resume_coro_if_needed w i o).dq.conns i).flags.writeEvents =
        !(w.dq.conns i).flags.writeEvents) := by
  obtain ⟨b1, b2, b3⟩ := resume_nonabort_spec w i o e hsr hy hreg
  constructor
  · intro hmr
    by_cases hcase : (o.yieldResult == 0) = (w.dq.conns i).flags.writeEvents
    · obtain ⟨e1, e2, -⟩ := b2 hmr hcase
      rw [e1, hreg, e2, ← hsync]
      rfl
    · have hcase' : (o.yieldResult == 0) =
          !(w.dq.conns i).flags.writeEvents := by
        rcases hb : (o.yieldResult == 0) <;>
          rcases hf : (w.dq.conns i).flags.writeEvents <;> simp_all
      obtain ⟨e1, e2, -⟩ := b3 hmr hcase'
      rw [e1, e2, Bool.not_not]
      rfl
  · intro hmr
    obtain ⟨e1, e2, -⟩ := b1 hmr
    exact ⟨e1, e2⟩

/-- C4 (witness): the amended statement applied to the concrete read-armed
worker with a non-`MAY_RESUME` yield (no reprogram, flag and arm stay in
sync). -/
theorem C4_flag_mirrors_arm_witness :
    ((worker_armed.dq.conns 0).flags.shouldResume = true ∧
      (0 : Int) ≤ (1 : Int) ∧
      worker_armed.epoll 0 =
        some { events := events_by_write_flag true, dataPtr := some 0 } ∧
      (events_by_write_flag true) =
        events_by_write_flag (!(worker_armed.dq.conns 0).flags.writeEvents)) ∧
    ((({ yieldResult := 1, mustRead := false, keepAlive := false } :
        CoroOutcome).mustRead = false →
      Option.map (fun en => en.events)
        ((resume_coro_if_needed worker_armed 0
          { yieldResult := 1, mustRead := false, keepAlive := false }).epoll 0) =
        some (events_by_write_flag
          (!((resume_coro_if_needed worker_armed 0
            { yieldResult := 1, mustRead := false, keepAlive := false }).dq.conns
            0).flags.writeEvents))) ∧
    (({ yieldResult := 1, mustRead := false, keepAlive := false } :
        CoroOutcome).mustRead = true →
      (resume_coro_if_needed worker_armed 0
        { yieldResult := 1, mustRead := false, keepAlive := false }).epoll 0 =
        some { events := events_by_write_flag true, dataPtr := some 0 } ∧
      ((resume_coro_if_needed worker_armed 0
        { yieldResult := 1, mustRead := false, keepAlive := false }).dq.conns
        0).flags.writeEvents = !(worker_armed.dq.conns 0).flags.writeEvents)) :=
  ⟨⟨by decide, by decide, by decide, by decide⟩,
    C4_flag_mirrors_arm worker_armed 0
      { yieldResult := 1, mustRead := false, keepAlive := false }
      { events := events_by_write_flag true, dataPtr := some 0 }
      (by decide) (by decide) (by decide) (by decide)⟩

/-- C5 (counterexample): a reachable worker-loop state whose death queue is
not deadline-sorted.  Fds 1 and 2 are handed off (both spawn with deadline
`0 + keep_alive_timeout = 5`); an event then resumes connection 1, whose
coroutine yields `1` (request finished, not `MAY_RESUME`), clearing
`CONN_SHOULD_RESUME_CORO`; `death_queue_move_to_last` therefore assigns it
`time_to_die = dq.time = 0` and re-seats it at the tail.  Following the
`next` chain from the head now yields deadlines `[5, 0]` — decreasing. -/
theorem C5_counterexample :
    chainList (handle_conn_event
      (accept_handed_off (accept_handed_off worker_zero 1 true
          { yieldResult := 0, mustRead := false, keepAlive := false })
        2 true { yieldResult := 0, mustRead := false, keepAlive := false })
      1 false { yieldResult := 1, mustRead := false, keepAlive := false }).dq
      (-1) 5 = [2, 1] ∧
    ((handle_conn_event
      (accept_handed_off (accept_handed_off worker_zero 1 true
          { yieldResult := 0, mustRead := false, keepAlive := false })
        2 true { yieldResult := 0, mustRead := false, keepAlive := false })
      1 false { yieldResult := 1, mustRead := false, keepAlive := false }).dq.conns
      2).time_to_die = 5 ∧
    ((handle_conn_event
      (accept_handed_off (accept_handed_off worker_zero 1 true
          { yieldResult := 0, mustRead := false, keepAlive := false })
        2 true { yieldResult := 0, mustRead := false, keepAlive := false })
      1 false { yieldResult := 1, mustRead := false, keepAlive := false }).dq.conns
      1).time_to_die = 0 ∧
    ¬ List.Pairwise (fun a b =>
      ((handle_conn_event
        (accept_handed_off (accept_handed_off worker_zero 1 true
            { yieldResult := 0, mustRead := false, keepAlive := false })
          2 true { yieldResult := 0, mustRead := false, keepAlive := false })
        1 false { yieldResult := 1, mustRead := false, keepAlive := false }).dq.conns
        a).time_to_die ≤
      ((handle_conn_event
        (accept_handed_off (accept_handed_off worker_zero 1 true
            { yieldResult := 0, mustRead := false, keepAlive := false })
          2 true { yieldResult := 0, mustRead := false, keepAlive := false })
        1 false { yieldResult := 1, mustRead := false, keepAlive := false }).dq.conns
        b).time_to_die)
      (chainList (handle_conn_event
        (accept_handed_off (accept_handed_off worker_zero 1 true
            { yieldResult := 0, mustRead := false, keepAlive := false })
          2 true { yieldResult := 0, mustRead := false, keepAlive := false })
        1 false { yieldResult := 1, mustRead := false, keepAlive := false }).dq
        (-1) 5) := by
  decide

/-- C5 (amended): along every `DqReach` execution — successful spawns,
re-seats of connections holding `CONN_KEEP_ALIVE` or
`CONN_SHOULD_RESUME_CORO` (so every insertion uses
`dq.time + keep_alive_timeout`), and non-wrapping timeout sweeps — the
death queue's link structure matches the abstract list and the
`time_to_die` values along the `next` chain from the head are
non-decreasing. -/
theorem C5_monotone_deadlines (dq : DeathQueue) (xs : List Nat)
    (h : DqReach dq xs) :
    represents dq xs = true ∧
    List.Pairwise (fun a b =>
      (dq.conns a).time_to_die ≤ (dq.conns b).time_to_die) xs :=
  ⟨(dqReach_inv dq xs h).1, (dqReach_inv dq xs h).2.2.2.2⟩

/-- C5 (witness): the amended statement at the concrete state reached by
initialising a queue and spawning connection 1. -/
theorem C5_monotone_deadlines_witness :
    represents (spawn_coro (death_queue_init (fun _ => conn_zero) 5) 1 true)
      ([] ++ [1]) = true ∧
    List.Pairwise (fun a b =>
      ((spawn_coro (death_queue_init (fun _ => conn_zero) 5) 1 true).conns
        a).time_to_die ≤
      ((spawn_coro (death_queue_init (fun _ => conn_zero) 5) 1 true).conns
        b).time_to_die) ([] ++ [1]) :=
  C5_monotone_deadlines _ _
    (DqReach.spawn _ _ 1 (DqReach.init (fun _ => conn_zero) 5 (by decide))
      (by simp))

/-- C6: `death_queue_kill_waiting` first increments `dq->time` by one (as a
32-bit unsigned counter), then destroys head-of-queue connections while the
head's `time_to_die` is at most the new `dq->time` — exactly the expired
prefix, stopping at the first survivor — and whenever the queue is left
empty the epoch is reset to `dq->time = 0` (P5); the destroyed slots have
their coroutine freed and `CONN_IS_ALIVE` cleared. -/
theorem C6_kill_expired_spec (dq : DeathQueue) (xs : List Nat) (fuel : Nat)
    (hrep : represents dq xs = true) (hnd : xs.Nodup)
    (hfuel : xs.length < fuel) :
    represents (death_queue_kill_waiting dq fuel)
      (xs.dropWhile fun j =>
        decide ((dq.conns j).time_to_die ≤ (dq.time + 1) % uintMod)) = true ∧
    (death_queue_kill_waiting dq fuel).time =
      (if (xs.dropWhile fun j =>
            decide ((dq.conns j).time_to_die ≤ (dq.time + 1) % uintMod)) = []
       then 0 else (dq.time + 1) % uintMod) ∧
    (∀ j ∈ xs.takeWhile fun j =>
        decide ((dq.conns j).time_to_die ≤ (dq.time + 1) % uintMod),
      ((death_queue_kill_waiting dq fuel).conns j).coro = false ∧
      ((death_queue_kill_waiting dq fuel).conns j).flags.isAlive = false) ∧
    (∀ j ∈ xs.dropWhile fun j =>
        decide ((dq.conns j).time_to_die ≤ (dq.time + 1) % uintMod),
      ((death_queue_kill_waiting dq fuel).conns j).time_to_die =
        (dq.conns j).time_to_die) := by
  obtain ⟨k1, k2, -, k4, k5, -⟩ := kill_waiting_spec dq xs fuel hrep hnd hfuel
  exact ⟨k1, k2, k5, fun j hj => (k4 j hj).2.1⟩

/-- C6 (witness): the sweep on the concrete queue `[1, 2]` with deadlines
`1` and `5` at tick `0`: connection 1 expires, connection 2 survives, the
epoch becomes `1`. -/
theorem C6_kill_expired_spec_witness :
    (represents dq_two [1, 2] = true ∧ [1, 2].Nodup ∧ [1, 2].length < 3) ∧
    (represents (death_queue_kill_waiting dq_two 3)
      ([1, 2].dropWhile fun j =>
        decide ((dq_two.conns j).time_to_die ≤ (dq_two.time + 1) % uintMod))
        = true ∧
    (death_queue_kill_waiting dq_two 3).time =
      (if ([1, 2].dropWhile fun j =>
            decide ((dq_two.conns j).time_to_die ≤
              (dq_two.time + 1) % uintMod)) = []
       then 0 else (dq_two.time + 1) % uintMod) ∧
    (∀ j ∈ [1, 2].takeWhile fun j =>
        decide ((dq_two.conns j).time_to_die ≤ (dq_two.time + 1) % uintMod),
      ((death_queue_kill_waiting dq_two 3).conns j).coro = false ∧
      ((death_queue_kill_waiting dq_two 3).conns j).flags.isAlive = false) ∧
    (∀ j ∈ [1, 2].dropWhile fun j =>
        decide ((dq_two.conns j).time_to_die ≤ (dq_two.time + 1) % uintMod),
      ((death_queue_kill_waiting dq_two 3).conns j).time_to_die =
        (dq_two.conns j).time_to_die)) :=
  ⟨⟨by decide, by decide, by decide⟩,
    C6_kill_expired_spec dq_two [1, 2] 3 (by decide) (by decide) (by decide)⟩

/-- C7: for a linked connection `i`, `death_queue_move_to_last` sets its
`time_to_die` to `dq.time + keep_alive_timeout` when `CONN_KEEP_ALIVE` or
`CONN_SHOULD_RESUME_CORO` is set and to `dq.time` otherwise, and re-links
it immediately before the sentinel head (the queue becomes
`xs.erase i ++ [i]`), leaving every other connection's deadline, flags and
coroutine unchanged. -/
theorem C7_move_to_tail_spec (dq : DeathQueue) (xs : List Nat) (i : Nat)
    (hrep : represents dq xs = true) (hnd : xs.Nodup) (hi : i ∈ xs)
    (hbound : dq.time + dq.keep_alive_timeout < uintMod) :
    represents (death_queue_move_to_last dq i) (xs.erase i ++ [i]) = true ∧
    ((death_queue_move_to_last dq i).conns i).time_to_die =
      dq.time + (if (dq.conns i).flags.keepAlive ||
                    (dq.conns i).flags.shouldResume
                 then dq.keep_alive_timeout else 0) ∧
    (∀ j, j ≠ i →
      ((death_queue_move_to_last dq i).conns j).time_to_die =
        (dq.conns j).time_to_die ∧
      ((death_queue_move_to_last dq i).conns j).flags = (dq.conns j).flags ∧
      ((death_queue_move_to_last dq i).conns j).coro = (dq.conns j).coro) := by
  refine ⟨represents_move dq xs i hrep hnd hi, ?_, ?_⟩
  · rw [move_conns_self_ttd]
    apply Nat.mod_eq_of_lt
    split_ifs <;> omega
  · intro j hj
    obtain ⟨a, b, c⟩ := move_conns_other dq i j hj
    exact ⟨b, a, c⟩

/-- C7 (witness): re-seating connection 1 of the concrete queue `[1, 2]`
(it has `CONN_SHOULD_RESUME_CORO` set, so its deadline becomes
`0 + 5 = 5`). -/
theorem C7_move_to_tail_spec_witness :
    (represents dq_two [1, 2] = true ∧ [1, 2].Nodup ∧ 1 ∈ [1, 2] ∧
      dq_two.time + dq_two.keep_alive_timeout < uintMod) ∧
    (represents (death_queue_move_to_last dq_two 1)
      ([1, 2].erase 1 ++ [1]) = true ∧
    ((death_queue_move_to_last dq_two 1).conns 1).time_to_die =
      dq_two.time + (if (dq_two.conns 1).flags.keepAlive ||
                        (dq_two.conns 1).flags.shouldResume
                     then dq_two.keep_alive_timeout else 0) ∧
    (∀ j, j ≠ 1 →
      ((death_queue_move_to_last dq_two 1).conns j).time_to_die =
        (dq_two.conns j).time_to_die ∧
      ((death_queue_move_to_last dq_two 1).conns j).flags =
        (dq_two.conns j).flags ∧
      ((death_queue_move_to_last dq_two 1).conns j).coro =
        (dq_two.conns j).coro)) :=
  ⟨⟨by decide, by decide, by decide, by decide⟩,
    C7_move_to_tail_spec dq_two [1, 2] 1 (by decide) (by decide) (by decide)
      (by decide)⟩

/-- C8: round-trip and idempotence (L1).  For a connection `i` not linked
in the queue, `death_queue_insert` followed by `death_queue_remove`
restores the head links and every other connection exactly, with `i`
itself ending in the defensively reset state `prev = next = -1`; and for a
linked connection `k`, two consecutive `death_queue_move_to_last` produce
the same state (links and deadlines) as one. -/
theorem C8_roundtrip_and_idempotence (dq : DeathQueue) (xs : List Nat)
    (i k : Nat) (hrep : represents dq xs = true) (hnd : xs.Nodup)
    (hi : i ∉ xs) (hk : k ∈ xs) :
    death_queue_remove (death_queue_insert dq i) i =
      { dq with conns := fun j => if j = i then
          { dq.conns j with prev := -1, next := -1 } else dq.conns j } ∧
    death_queue_move_to_last (death_queue_move_to_last dq k) k =
      death_queue_move_to_last dq k :=
  ⟨insert_remove_roundtrip dq xs i hrep hnd hi,
    move_idempotent dq xs k hrep hnd hk⟩

/-- C8 (witness): the round trip with the unlinked slot 3 and the double
re-seat of connection 1 on the concrete queue `[1, 2]`. -/
theorem C8_roundtrip_and_idempotence_witness :
    (represents dq_two [1, 2] = true ∧ [1, 2].Nodup ∧ 3 ∉ [1, 2] ∧
      1 ∈ [1, 2]) ∧
    (death_queue_remove (death_queue_insert dq_two 3) 3 =
      { dq_two with conns := fun j => if j = 3 then
          { dq_two.conns j with prev := -1, next := -1 }
        else dq_two.conns j } ∧
    death_queue_move_to_last (death_queue_move_to_last dq_two 1) 1 =
      death_queue_move_to_last dq_two 1) :=
  ⟨⟨by decide, by decide, by decide, by decide⟩,
    C8_roundtrip_and_idempotence dq_two [1, 2] 3 1 (by decide) (by decide)
      (by decide) (by decide)⟩

/-- C9: when `coro_new` fails during `spawn_coro` (for a slot satisfying
the function's entry assertions: no coroutine, not alive), the state is
unchanged — the slot keeps no coroutine, `CONN_IS_ALIVE` stays clear, and
the death queue is not modified. -/
theorem C9_spawn_failure_no_insert (dq : DeathQueue) (i : Nat)
    (hcoro : (dq.conns i).coro = false)
    (halive : (dq.conns i).flags.isAlive = false) :
    spawn_coro dq i false = dq ∧
    ((spawn_coro dq i false).conns i).coro = false ∧
    ((spawn_coro dq i false).conns i).flags.isAlive = false ∧
    (spawn_coro dq i false).head = dq.head := by
  have h := spawn_fail_eq dq i hcoro
  exact ⟨h, by rw [h]; exact hcoro, by rw [h]; exact halive, by rw [h]⟩

/-- C9 (witness): a failing spawn into the empty slot 3 of the concrete
queue `[1, 2]`. -/
theorem C9_spawn_failure_no_insert_witness :
    ((dq_two.conns 3).coro = false ∧ (dq_two.conns 3).flags.isAlive = false) ∧
    (spawn_coro dq_two 3 false = dq_two ∧
      ((spawn_coro dq_two 3 false).conns 3).coro = false ∧
      ((spawn_coro dq_two 3 false).conns 3).flags.isAlive = false ∧
      (spawn_coro dq_two 3 false).head = dq_two.head) :=
  ⟨⟨by decide, by decide⟩,
    C9_spawn_failure_no_insert dq_two 3 (by decide) (by decide)⟩

/-- C10: calling `death_queue_remove` on a node whose links are already in
the defensive reset state `prev = next = -1` routes both neighbour updates
through `death_queue_idx_to_node(dq, -1) = &dq->head`, setting
`head.prev = head.next = -1`: the queue then reports empty no matter how
many other nodes are still linked through it. -/
theorem C10_remove_reset_node_wipes_head (dq : DeathQueue) (i : Nat)
    (hp : (dq.conns i).prev = -1) (hn : (dq.conns i).next = -1) :
    (death_queue_remove dq i).head.next = -1 ∧
    (death_queue_remove dq i).head.prev = -1 ∧
    death_queue_empty (death_queue_remove dq i) = true := by
  rw [remove_eq_of_neg_neg dq i (by omega) (by omega)]
  simp [death_queue_empty, hp, hn]

/-- C10 (witness): removing the reset node 7 of `dq_two_reset7` empties the
head even though connections 1 and 2 are still linked through it. -/
theorem C10_remove_reset_node_wipes_head_witness :
    ((dq_two_reset7.conns 7).prev = -1 ∧ (dq_two_reset7.conns 7).next = -1 ∧
      represents dq_two_reset7 [1, 2] = true) ∧
    ((death_queue_remove dq_two_reset7 7).head.next = -1 ∧
      (death_queue_remove dq_two_reset7 7).head.prev = -1 ∧
      death_queue_empty (death_queue_remove dq_two_reset7 7) = true) :=
  ⟨⟨by decide, by decide, by decide⟩,
    C10_remove_reset_node_wipes_head dq_two_reset7 7 (by decide) (by decide)⟩
